import Mathlib

/-!
Verification development for the Pacsea repository's maintenance scripts.

The embedding models, over `List Char`:
  * `dev/scripts/update_version_announcement.py` — the announcement-array
    synchronizer (string escaping, regex-based record parsing, upsert,
    re-rendering, and the `re.sub` splice including Python's
    replacement-template processing);
  * `dev/scripts/check_translation_keys.py` — the locale flattener and
    key differ.

Python strings are modelled as `List Char`; Python `dict`s as association
lists with Python's insertion-order/last-value-wins semantics.
-/

set_option maxRecDepth 100000

namespace Pacsea

/-- Python strings, modelled as lists of characters. -/
abbrev Str := List Char

/-- The backslash character. -/
def bsl : Char := '\\'

/-- The newline character. -/
def nlc : Char := '\n'

/-- First index at which `pat` occurs as a contiguous substring of `s`
(Python `re`/`str.find` leftmost-occurrence semantics); `none` if absent. -/
def findSub (pat : Str) : Str → Option Nat
  | [] => if pat = [] then some 0 else none
  | s@(_ :: rest) =>
    if pat.isPrefixOf s then some 0
    else (findSub pat rest).map (· + 1)

/-- Fuel-driven body of `str.replace`: each round replaces the leftmost
occurrence and continues after the inserted text.  For a non-empty pattern
every round strictly shortens the remaining text, so fuel `s.length + 1`
always suffices and the `0` case is never reached. -/
def pyReplaceF (pat repl : Str) : Nat → Str → Str
  | 0, s => s
  | fuel + 1, s =>
    match findSub pat s with
    | none => s
    | some i => s.take i ++ repl ++ pyReplaceF pat repl fuel (s.drop (i + pat.length))

/-- `s.replace(pat, repl)` for a non-empty `pat` (Python `str.replace`;
every call site in the scripts passes a non-empty pattern). -/
def pyReplace (s pat repl : Str) : Str := pyReplaceF pat repl (s.length + 1) s

/-- `escape_rust_string` (update_version_announcement.py, lines 71–84):
per character, backslash becomes double backslash and a double quote becomes
backslash-quote; all other characters pass through. -/
def escape_rust_string : Str → Str
  | [] => []
  | c :: rest =>
    (if c = bsl then [bsl, bsl]
     else if c = '"' then [bsl, '"']
     else [c]) ++ escape_rust_string rest

/-- `unescape` (update_version_announcement.py, lines 137–158): backslash-n
becomes a newline, doubled backslash a single backslash, backslash-quote a
quote; any other backslash is kept as-is and scanning resumes at the
following character. -/
def unescape : Str → Str
  | [] => []
  | [c] => [c]
  | c :: d :: rest2 =>
    if c = bsl then
      if d = 'n' then nlc :: unescape rest2
      else if d = bsl then bsl :: unescape rest2
      else if d = '"' then '"' :: unescape rest2
      else bsl :: unescape (d :: rest2)
    else c :: unescape (d :: rest2)

/-- The content-field serialization of `update_announcement`
(update_version_announcement.py, line 204):
`ann["content"].replace("\n", "\\\\n").replace('"', '\\"')` — each newline
becomes the three characters backslash-backslash-`n`, then each quote
becomes backslash-quote. -/
def formatContent (s : Str) : Str :=
  pyReplace (pyReplace s [nlc] [bsl, bsl, 'n']) ['"'] [bsl, '"']

/-! ### A backtracking matcher for the two record regexes

`parse_announcements` (lines 108–135) uses `re` patterns built solely from
literals, greedy single-character-class stars (`\s*`, `[^}]*`), and greedy
single-character-class capturing plus-groups (`([^"]+)`).  `matchItems`
reproduces Python's leftmost match with greedy stars and full backtracking
for exactly this fragment. -/

/-- One regex atom of the fragment used by `ann_pattern`. -/
inductive RItem where
  | lit : Str → RItem
  | star : (Char → Bool) → RItem
  | plusCap : (Char → Bool) → RItem

/-- Greedy star: try the continuation after consuming `i` characters (at
most the maximal run), backing off one character at a time — exactly
Python's longest-first backtracking for a single-character-class star. -/
def starLoop (f : Str → Option (List Str × Str)) (s : Str) :
    Nat → Option (List Str × Str)
  | 0 => f s
  | i + 1 =>
    match f (s.drop (i + 1)) with
    | some r => some r
    | none => starLoop f s i

/-- Greedy capturing plus: like `starLoop` but consumes at least one
character and records the consumed run as a capture group. -/
def capLoop (f : Str → Option (List Str × Str)) (s : Str) :
    Nat → Option (List Str × Str)
  | 0 => none
  | i + 1 =>
    match f (s.drop (i + 1)) with
    | some (caps, r) => some (s.take (i + 1) :: caps, r)
    | none => capLoop f s i

/-- Match a sequence of atoms at the start of `s`; returns the captures (in
group order) and the remainder after the match.  One unit of fuel is spent
per atom, so fuel `items.length + 1` always suffices and the `0` case is
never reached. -/
def matchItemsF : Nat → List RItem → Str → Option (List Str × Str)
  | 0, _, _ => none
  | _ + 1, [], s => some ([], s)
  | fuel + 1, .lit l :: rest, s =>
    if l.isPrefixOf s then matchItemsF fuel rest (s.drop l.length) else none
  | fuel + 1, .star p :: rest, s =>
    starLoop (matchItemsF fuel rest) s ((s.takeWhile p).length)
  | fuel + 1, .plusCap p :: rest, s =>
    capLoop (matchItemsF fuel rest) s ((s.takeWhile p).length)

/-- Match the atom sequence at the start of `s`, greedy with backtracking
as Python's engine is. -/
def matchItems (items : List RItem) (s : Str) : Option (List Str × Str) :=
  matchItemsF (items.length + 1) items s

/-- Leftmost match: try each start position from the left (Python
`re.search`/`finditer` scanning). Returns captures and the text after the
match. -/
def searchFrom (items : List RItem) : Str → Option (List Str × Str)
  | [] =>
    (match matchItems items [] with
     | some r => some r
     | none => none)
  | c :: t =>
    match matchItems items (c :: t) with
    | some r => some r
    | none => searchFrom items t

/-- All non-overlapping matches from the left (`re.finditer`), as capture
lists.  Every `ann_pattern` match consumes at least its leading literal, so
fuel `s.length + 1` always suffices and the `0` case is never reached. -/
def findIterF (items : List RItem) : Nat → Str → List (List Str)
  | 0, _ => []
  | fuel + 1, s =>
    match searchFrom items s with
    | none => []
    | some (caps, rest) => caps :: findIterF items fuel rest

/-- All non-overlapping matches of the atom sequence, as capture lists. -/
def findIterAux (items : List RItem) (s : Str) : List (List Str) :=
  findIterF items (s.length + 1) s

/-- Python `\s` on the ASCII range (the announcement file is ASCII). -/
def isPySpace (c : Char) : Bool :=
  c = ' ' || c = '\t' || c = '\n' || c = '\r' || c = '\x0b' || c = '\x0c'

/-- `ann_pattern` (lines 127–133):
`VersionAnnouncement\s*\{[^}]*version:\s*"([^"]+)"[^}]*title:\s*"([^"]+)"[^}]*content:\s*"([^"]+)"[^}]*\}`. -/
def annItems : List RItem :=
  [ .lit "VersionAnnouncement".data, .star isPySpace, .lit ['{'],
    .star (fun c => c ≠ '}'), .lit "version:".data, .star isPySpace,
    .lit ['"'], .plusCap (fun c => c ≠ '"'), .lit ['"'],
    .star (fun c => c ≠ '}'), .lit "title:".data, .star isPySpace,
    .lit ['"'], .plusCap (fun c => c ≠ '"'), .lit ['"'],
    .star (fun c => c ≠ '}'), .lit "content:".data, .star isPySpace,
    .lit ['"'], .plusCap (fun c => c ≠ '"'), .lit ['"'],
    .star (fun c => c ≠ '}'), .lit ['}'] ]

/-! ### Python `re.sub` replacement templates

`update_announcement` (lines 212–216) splices via
`re.sub(pattern, replacement, content, flags=re.DOTALL)` where the
replacement string is itself processed as a template: `\1`…`\3` are group
references, `\n` and friends are character escapes, `\\` collapses to one
backslash, unknown escapes of ASCII letters are errors, and any other
backslash pair is kept verbatim (CPython `sre_parse.parse_template`). -/

/-- Errors raised by the modelled Python code. -/
inductive PyErr where
  | valueError : String → PyErr
  | templateError : String → PyErr
deriving DecidableEq

/-- One parsed unit of a replacement template. -/
inductive TPiece where
  | chs : Str → TPiece
  | grp : Nat → TPiece
deriving DecidableEq

/-- Octal digit test. -/
def isOct (c : Char) : Bool := '0' ≤ c && c ≤ '7'

/-- Numeric value of a decimal digit character. -/
def digitVal (c : Char) : Nat := c.toNat - '0'.toNat

/-- Numeric value of a digit string. -/
def natOfDigits (s : Str) : Nat := s.foldl (fun a c => a * 10 + digitVal c) 0

/-- `\g<…>` name scan: characters up to the closing `>`. -/
def parseGName : Str → Except PyErr (Str × Str)
  | [] => .error (.templateError "missing >, unterminated name")
  | c :: rest =>
    if c = '>' then .ok ([], rest)
    else
      match parseGName rest with
      | .error e => .error e
      | .ok (nm, r) => .ok (c :: nm, r)

/-- `\g` group reference: `<`, then a (here: digit-only) group name, then
`>`. The sub pattern has no named groups, so non-numeric names fail. -/
def parseGAngle : Str → Except PyErr (Nat × Str)
  | [] => .error (.templateError "missing <")
  | c :: rest =>
    if c = '<' then
      match parseGName rest with
      | .error e => .error e
      | .ok (nm, r) =>
        if !nm.isEmpty && nm.all Char.isDigit then .ok (natOfDigits nm, r)
        else .error (.templateError "bad character in group name")
    else .error (.templateError "missing <")

/-- After `\0`: up to two more octal digits form an octal character escape
(always succeeds). -/
def parseOct0 : Str → TPiece × Str
  | [] => (.chs [Char.ofNat 0], [])
  | e1 :: rest3 =>
    if isOct e1 then
      match rest3 with
      | [] => (.chs [Char.ofNat (digitVal e1)], [])
      | e2 :: rest4 =>
        if isOct e2 then (.chs [Char.ofNat (digitVal e1 * 8 + digitVal e2)], rest4)
        else (.chs [Char.ofNat (digitVal e1)], rest3)
    else (.chs [Char.ofNat 0], e1 :: rest3)

/-- After `\d` with `d ∈ 1..9`: a second digit extends the group number
(two-digit groups exceed the pattern's 3 groups, hence are invalid) unless
three octal digits form an octal escape; a single digit is a group
reference, valid when at most 3. -/
def parseDigitRef (d : Char) : Str → Except PyErr (TPiece × Str)
  | [] =>
    if digitVal d ≤ 3 then .ok (.grp (digitVal d), [])
    else .error (.templateError "invalid group reference")
  | e1 :: rest3 =>
    if e1.isDigit then
      match rest3 with
      | e2 :: rest4 =>
        if isOct d && isOct e1 && isOct e2 then
          if digitVal d * 64 + digitVal e1 * 8 + digitVal e2 > 255 then
            .error (.templateError "octal escape value outside of range 0-0o377")
          else .ok (.chs [Char.ofNat (digitVal d * 64 + digitVal e1 * 8 + digitVal e2)], rest4)
        else .error (.templateError "invalid group reference")
      | [] => .error (.templateError "invalid group reference")
    else
      if digitVal d ≤ 3 then .ok (.grp (digitVal d), e1 :: rest3)
      else .error (.templateError "invalid group reference")

/-- Dispatch for the character after a backslash. -/
def parseEsc (d : Char) (rest2 : Str) : Except PyErr (TPiece × Str) :=
  if d = bsl then .ok (.chs [bsl], rest2)
  else if d = 'n' then .ok (.chs [nlc], rest2)
  else if d = 'a' then .ok (.chs [Char.ofNat 7], rest2)
  else if d = 'b' then .ok (.chs [Char.ofNat 8], rest2)
  else if d = 'f' then .ok (.chs [Char.ofNat 12], rest2)
  else if d = 'r' then .ok (.chs [Char.ofNat 13], rest2)
  else if d = 't' then .ok (.chs [Char.ofNat 9], rest2)
  else if d = 'v' then .ok (.chs [Char.ofNat 11], rest2)
  else if d = 'g' then
    match parseGAngle rest2 with
    | .error e => .error e
    | .ok (n, rest3) =>
      if n ≤ 3 then .ok (.grp n, rest3)
      else .error (.templateError "invalid group reference")
  else if d = '0' then .ok (parseOct0 rest2)
  else if d.isDigit then parseDigitRef d rest2
  else if d.isAlpha then .error (.templateError "bad escape")
  else .ok (.chs [bsl, d], rest2)

/-- One step of template parsing: consumes one literal character or one
escape from the front. The splice pattern has 3 capture groups, so group
references above 3 are invalid. -/
def parseStep : Str → Except PyErr (TPiece × Str)
  | [] => .error (.templateError "empty template step")
  | c :: rest =>
    if c = bsl then
      match rest with
      | [] => .error (.templateError "bad escape (end of pattern)")
      | d :: rest2 => parseEsc d rest2
    else .ok (.chs [c], rest)

/-- Fuel-driven template parsing; by `parseStep_length_lt` every step
strictly consumes input, so fuel `s.length + 1` always suffices and the
`0` case (returning as for the empty template) is never reached. -/
def parseTemplateF : Nat → Str → Except PyErr (List TPiece)
  | 0, _ => .ok []
  | _ + 1, [] => .ok []
  | fuel + 1, c :: rest =>
    match parseStep (c :: rest) with
    | .error e => .error e
    | .ok (p, r) =>
      match parseTemplateF fuel r with
      | .error e => .error e
      | .ok ps => .ok (p :: ps)

/-- Parse a whole replacement template into pieces (CPython parses the
template eagerly, before any match is substituted). -/
def parseTemplate (s : Str) : Except PyErr (List TPiece) :=
  parseTemplateF (s.length + 1) s

/-- Substitute the groups of one match into the parsed template.  The splice
pattern is `(marker)(.*?)(\];)`, so group 0 (the whole match) is the
concatenation of groups 1–3. -/
def applyTemplate (g1 g2 g3 : Str) : List TPiece → Str
  | [] => []
  | .chs l :: rest => l ++ applyTemplate g1 g2 g3 rest
  | .grp n :: rest =>
    (if n = 0 then g1 ++ g2 ++ g3
     else if n = 1 then g1
     else if n = 2 then g2
     else if n = 3 then g3
     else []) ++ applyTemplate g1 g2 g3 rest

/-! ### The announcement synchronizer -/

/-- An in-memory announcement record (the dict built at lines 160–165). -/
structure PyAnn where
  version : Str
  title : Str
  content : Str
deriving DecidableEq

/-- The literal text of the array pattern's fixed part:
`pub const VERSION_ANNOUNCEMENTS: &\[VersionAnnouncement\] = &\[`. -/
def MARKER : Str := "pub const VERSION_ANNOUNCEMENTS: &[VersionAnnouncement] = &[".data

/-- The closing literal `\];` of the array pattern. -/
def CLOSE : Str := [']', ';']

/-- Build a record from the three captured fields (lines 160–164). -/
def mkAnn (caps : List Str) : PyAnn :=
  ⟨unescape (caps.getD 0 []), unescape (caps.getD 1 []), unescape (caps.getD 2 [])⟩

/-- 1-based line number of a position: newlines before it, plus one. -/
def countLines (s : Str) : Nat := (s.filter (fun c => c = nlc)).length + 1

/-- `parse_announcements` (lines 101–167).  `re.search` of
`pub const VERSION_ANNOUNCEMENTS: &\[VersionAnnouncement\] = &\[(.*?)\];`
with DOTALL finds the first marker occurrence and the first `];` after it;
absence of either yields the single `ValueError`.  The records are the
`finditer` matches of `ann_pattern` over the array body, unescaped. -/
def parse_announcements (content : Str) : Except PyErr (List PyAnn × Nat × Nat) :=
  match findSub MARKER content with
  | none => .error (.valueError "Could not find VERSION_ANNOUNCEMENTS array in file")
  | some p =>
    match findSub CLOSE (content.drop (p + MARKER.length)) with
    | none => .error (.valueError "Could not find VERSION_ANNOUNCEMENTS array in file")
    | some b =>
      let body := (content.drop (p + MARKER.length)).take b
      let startLine := countLines (content.take p)
      let endLine := countLines (content.take (p + MARKER.length + b + CLOSE.length))
      .ok ((findIterAux annItems body).map mkAnn, startLine, endLine)

/-- The upsert of `update_announcement` (lines 174–192): the first record
whose `version` equals the given one has its title and content replaced in
place; if none matches, a new record is appended at the end.  The boolean
is `true` exactly when an existing record was updated (the script prints
"Updating existing announcement" in that case and "Adding new announcement"
otherwise). -/
def upsertAnnouncements (version title newContent : Str) :
    List PyAnn → List PyAnn × Bool
  | [] => ([⟨version, title, newContent⟩], false)
  | a :: rest =>
    if a.version = version then
      ({ a with title := title, content := newContent } :: rest, true)
    else
      let (res, w) := upsertAnnouncements version title newContent rest
      (a :: res, w)

/-- The fixed comment line heading the rebuilt array (line 195). -/
def headerLine : Str := "    // Add version-specific announcements here".data

/-- The five raw replacement-text lines appended per record (lines 197–210).
Version and title go through `escape_rust_string`; content through the
newline/quote replacement of line 204. -/
def renderBlockLines (a : PyAnn) : List Str :=
  [ "    VersionAnnouncement \x7b".data,
    "        version: \"".data ++ escape_rust_string a.version ++ "\",".data,
    "        title: \"".data ++ escape_rust_string a.title ++ "\",".data,
    "        content: \"".data ++ formatContent a.content ++ "\",".data,
    "    \x7d,".data ]

/-- `array_lines` (lines 195–210): the header comment, then each record's
block. -/
def buildArrayLines (anns : List PyAnn) : List Str :=
  headerLine :: anns.flatMap renderBlockLines

/-- `"\n".join(...)`. -/
def joinNL (lines : List Str) : Str := List.intercalate [nlc] lines

/-- The `re.sub` replacement string of line 214:
`r'\1\n' + "\n".join(array_lines) + "\n" + r'\3'` (the middle newlines are
real characters; `\1`, `\n`, `\3` at the ends are template escapes). -/
def buildReplacement (anns : List PyAnn) : Str :=
  [bsl, '1', bsl, 'n'] ++ joinNL (buildArrayLines anns) ++ [nlc] ++ [bsl, '3']

/-- The match-and-replace loop of `re.sub` over the splice pattern
`(marker)(.*?)(\];)` with DOTALL: each match spans from a marker occurrence
to the first `];` after it; all non-overlapping matches are replaced, left
to right.  Fuel is the string length plus one; every match consumes at
least the marker, so the fuel never runs out (and the `0` case returns the
unchanged remainder exactly as the no-match case does). -/
def subLoop (pieces : List TPiece) : Nat → Str → Str
  | 0, s => s
  | fuel + 1, s =>
    match findSub MARKER s with
    | none => s
    | some p =>
      match findSub CLOSE (s.drop (p + MARKER.length)) with
      | none => s
      | some b =>
        let body := (s.drop (p + MARKER.length)).take b
        s.take p ++ applyTemplate MARKER body CLOSE pieces
          ++ subLoop pieces fuel (s.drop (p + MARKER.length + b + CLOSE.length))

/-- `re.sub(pattern, replacement, content, flags=re.DOTALL)` (line 216):
parse the replacement template once, then replace every match. -/
def pySubAll (repl : Str) (s : Str) : Except PyErr Str :=
  match parseTemplate repl with
  | .error e => .error e
  | .ok pieces => .ok (subLoop pieces (s.length + 1) s)

/-- `update_announcement` (lines 170–218), returning the new document and
whether an existing record was updated. -/
def update_announcement (content version title annContent : Str) :
    Except PyErr (Str × Bool) :=
  match parse_announcements content with
  | .error e => .error e
  | .ok (anns, _, _) =>
    let (anns2, wasUpdate) := upsertAnnouncements version title annContent anns
    match pySubAll (buildReplacement anns2) content with
    | .error e => .error e
    | .ok newContent => .ok (newContent, wasUpdate)

/-- The three-argument command-line mode's content handling when the
argument is not an existing file (main, line 272):
`content = content_arg.replace("\\n", "\n")`. -/
def contentFromArg (arg : Str) : Str := pyReplace arg [bsl, 'n'] [nlc]

/-! ### The locale flattener and key differ (`check_translation_keys.py`) -/

/-- A YAML-ish value: scalar, list, or mapping (Python dicts keep insertion
order with unique keys; scalars beyond strings are irrelevant to the
claims). -/
inductive YVal where
  | str : String → YVal
  | list : List YVal → YVal
  | dict : List (String × YVal) → YVal

/-- Is the value a mapping? -/
def YVal.isDict : YVal → Bool
  | .dict _ => true
  | _ => false

/-- `f'{parent_key}{sep}{k}' if parent_key else k` with `sep = '.'`
(flatten_dict, line 35). -/
def joinKey (pk k : String) : String := if pk = "" then k else pk ++ "." ++ k

/-- Python dict insertion: an existing key keeps its position but takes the
new value; a new key is appended. -/
def pyDictInsert (d : List (String × YVal)) (k : String) (v : YVal) :
    List (String × YVal) :=
  if d.any (fun q => q.1 = k) then
    d.map (fun q => if q.1 = k then (k, v) else q)
  else d ++ [(k, v)]

/-- `dict(items)`: left-to-right insertion with last-value-wins. -/
def pyDict (items : List (String × YVal)) : List (String × YVal) :=
  items.foldl (fun d kv => pyDictInsert d kv.1 kv.2) []

mutual

/-- The `items` list accumulated by `flatten_dict` (lines 33–41): a dict
value recurses with the dotted key; a list value — like any other
non-dict value — becomes a single leaf entry under its dotted key. -/
def flattenItems (pk : String) : List (String × YVal) → List (String × YVal)
  | [] => []
  | (k, v) :: rest =>
    (match v with
     | .dict m => flatten_dict m (joinKey pk k)
     | _ => [(joinKey pk k, v)]) ++ flattenItems pk rest

/-- `flatten_dict` (lines 22–42): flatten and convert to a dict
(`return dict(items)`). -/
def flatten_dict (d : List (String × YVal)) (pk : String) : List (String × YVal) :=
  pyDict (flattenItems pk d)

end

mutual

/-- Transform a value's list-leaves (at any dict depth) by `f`, leaving
keys and structure unchanged — used to state that flattening's key set
ignores list contents. -/
def mapListLeavesVal (f : List YVal → List YVal) : YVal → YVal
  | .str a => .str a
  | .list l => .list (f l)
  | .dict m => .dict (mapListLeaves f m)

/-- Transform every list-leaf of a mapping by `f`. -/
def mapListLeaves (f : List YVal → List YVal) :
    List (String × YVal) → List (String × YVal)
  | [] => []
  | (k, v) :: rest => (k, mapListLeavesVal f v) :: mapListLeaves f rest

end

/-- Missing keys (main, lines 116–119): the sorted English keys absent from
the target mapping. -/
def missingKeys (enFlat targetFlat : List (String × YVal)) : List String :=
  ((enFlat.map Prod.fst).mergeSort (fun a b => decide (a ≤ b))).filter
    (fun k => ¬ targetFlat.any (fun q => q.1 = k))

/-- Extra keys (main, lines 122–125): the sorted target keys absent from
the English mapping. -/
def extraKeys (enFlat targetFlat : List (String × YVal)) : List String :=
  ((targetFlat.map Prod.fst).mergeSort (fun a b => decide (a ≤ b))).filter
    (fun k => ¬ enFlat.any (fun q => q.1 = k))

/-- The characterwise form of the content-field serialization: newline to
backslash-backslash-`n`, quote to backslash-quote. -/
def encPy (c : Char) : Str :=
  if c = nlc then [bsl, bsl, 'n'] else if c = '"' then [bsl, '"'] else [c]

/-- The template pieces produced by parsing the serialized form of one
backslash-free content character. -/
def encPieces (c : Char) : List TPiece :=
  if c = nlc then [.chs [bsl], .chs ['n']]
  else if c = '"' then [.chs [bsl, '"']]
  else [.chs [c]]

/-- The document text the template expansion emits for one backslash-free
content character: newline becomes backslash-`n`, quote becomes
backslash-quote. -/
def encOut (c : Char) : Str :=
  if c = nlc then [bsl, 'n'] else if c = '"' then [bsl, '"'] else [c]

/-! ### Concrete documents used by witnesses and counterexamples -/

/-- A small host document: a prefix comment, the announcement array with
one canonical record (`0.6.0`/`T`/`C`), and a suffix. -/
def doc0 : Str :=
  ("// head\npub const VERSION_ANNOUNCEMENTS: &[VersionAnnouncement] = &[\n    // Add version-specific announcements here\n    VersionAnnouncement \x7b\n        version: \"0.6.0\",\n        title: \"T\",\n        content: \"C\",\n    \x7d,\n];\nfn tail() \x7b\x7d\n").data

/-- `doc0` after upserting `0.7.0`/`Hi` whose content is the literal
two-character pair backslash-`n`. -/
def docC1 : Str :=
  match update_announcement doc0 "0.7.0".data "Hi".data ['a', bsl, 'n', 'b'] with
  | .ok (d, _) => d
  | .error _ => []

/-- Like `doc0` but with an additional block that `ann_pattern` cannot
match (no title/content fields). -/
def docMal : Str :=
  ("// head\npub const VERSION_ANNOUNCEMENTS: &[VersionAnnouncement] = &[\n    // Add version-specific announcements here\n    VersionAnnouncement \x7b\n        version: \"0.6.0\",\n        title: \"T\",\n        content: \"C\",\n    \x7d,\n    VersionAnnouncement \x7b\n        version: \"0.9.9\",\n    \x7d,\n];\nfn tail() \x7b\x7d\n").data

/-- `docMal` after updating the `0.6.0` record. -/
def docMalUpdated : Str :=
  match update_announcement docMal "0.6.0".data "N".data "M".data with
  | .ok (d, _) => d
  | .error _ => []

/-- A document whose marker is present but never followed by `];`. -/
def docUnterm : Str :=
  ("pub const VERSION_ANNOUNCEMENTS: &[VersionAnnouncement] = &[ unterminated").data

/-- A document with two marker…`];` spans: the second lies entirely inside
the suffix after the first span's close. -/
def doc3 : Str := "p".data ++ MARKER ++ "A];q".data ++ MARKER ++ "XYZ];r".data

/-- `doc3` after upserting `0.7.0`/`Hi`/`Hello`. -/
def doc3upd : Str :=
  match update_announcement doc3 "0.7.0".data "Hi".data "Hello".data with
  | .ok (d, _) => d
  | .error _ => []

/-- `doc0` after the first upsert of `0.7.0`/`Hi` with content `x];y`
(a content that embeds the array-close token). -/
def doc4a : Str :=
  match update_announcement doc0 "0.7.0".data "Hi".data ['x', ']', ';', 'y'] with
  | .ok (d, _) => d
  | .error _ => []

/-- `doc4a` after a second, identical upsert. -/
def doc4b : Str :=
  match update_announcement doc4a "0.7.0".data "Hi".data ['x', ']', ';', 'y'] with
  | .ok (d, _) => d
  | .error _ => []

/-- `doc0` after upserting `0.7.0`/`Hi`/`Hello` (benign content). -/
def doc4W : Str :=
  match update_announcement doc0 "0.7.0".data "Hi".data "Hello".data with
  | .ok (d, _) => d
  | .error _ => []

/-- The parsed replacement template for re-rendering `doc4W`'s records. -/
def tiW : List TPiece :=
  match parseTemplate (buildReplacement
      ((findIterAux annItems ((doc4W.drop (8 + MARKER.length)).take 255)).map mkAnn)) with
  | .ok ps => ps
  | .error _ => []

/-- A document whose first record block is written on a single line (a form
`ann_pattern` accepts), followed by a canonical multi-line record. -/
def doc5 : Str :=
  ("// h\npub const VERSION_ANNOUNCEMENTS: &[VersionAnnouncement] = &[\n    VersionAnnouncement \x7b version: \"0.5.0\", title: \"A\", content: \"B\", \x7d,\n    VersionAnnouncement \x7b\n        version: \"0.6.0\",\n        title: \"T\",\n        content: \"C\",\n    \x7d,\n];\n").data

/-- The records of `doc5`. -/
def anns5 : List PyAnn :=
  [⟨"0.5.0".data, "A".data, "B".data⟩, ⟨"0.6.0".data, "T".data, "C".data⟩]

/-- `doc5` after updating the `0.6.0` record's title/content to `N`/`M`. -/
def doc5upd : Str :=
  match update_announcement doc5 "0.6.0".data "N".data "M".data with
  | .ok (d, _) => d
  | .error _ => []

/-- The parsed replacement template for re-rendering `doc5`'s records after
the `0.6.0` upsert. -/
def ti5 : List TPiece :=
  match parseTemplate (buildReplacement
      ((upsertAnnouncements "0.6.0".data "N".data "M".data anns5).1)) with
  | .ok ps => ps
  | .error _ => []

/-! ## Helper lemmas and claim theorems -/

/-- A found occurrence fits inside the string. -/
theorem findSub_add_length_le (pat : Str) :
    ∀ (s : Str) (i : Nat), findSub pat s = some i → i + pat.length ≤ s.length := by
  intro s
  induction s with
  | nil =>
    intro i h
    simp only [findSub] at h
    split at h
    · simp_all
    · simp at h
  | cons a t ih =>
    intro i h
    simp only [findSub] at h
    split at h
    · rename_i hpre
      cases h
      simpa using List.IsPrefix.length_le (List.isPrefixOf_iff_prefix.mp hpre)
    · match hfs : findSub pat t with
      | none => rw [hfs] at h; simp at h
      | some j =>
        rw [hfs] at h
        simp only [Option.map_some'] at h
        cases h
        have := ih j hfs
        simp only [List.length_cons]
        omega

/-- For a non-empty pattern the fuel is irrelevant once it exceeds the
string length. -/
theorem pyReplaceF_fuel (pat repl : Str) (hp : pat ≠ []) :
    ∀ (n : Nat), ∀ (fuel fuel' : Nat) (s : Str), s.length ≤ n →
      s.length < fuel → s.length < fuel' →
      pyReplaceF pat repl fuel s = pyReplaceF pat repl fuel' s := by
  intro n
  induction n with
  | zero =>
    intro fuel fuel' s hs hf hf'
    match fuel, fuel' with
    | f + 1, f' + 1 =>
      have hsnil : s = [] := List.eq_nil_of_length_eq_zero (by omega)
      subst hsnil
      have hn : findSub pat [] = none := by simp [findSub, hp]
      simp only [pyReplaceF, hn]
  | succ n ih =>
    intro fuel fuel' s hs hf hf'
    match fuel, fuel' with
    | f + 1, f' + 1 =>
      simp only [pyReplaceF]
      match hfs : findSub pat s with
      | none => rfl
      | some i =>
        dsimp only
        have hlen : i + pat.length ≤ s.length := findSub_add_length_le pat s i hfs
        have hppos : 0 < pat.length := List.length_pos_of_ne_nil hp
        have hdrop : (s.drop (i + pat.length)).length ≤ n := by
          simp only [List.length_drop]
          omega
        rw [ih f f' (s.drop (i + pat.length)) hdrop
          (by simp only [List.length_drop]; omega)
          (by simp only [List.length_drop]; omega)]

/-- `parseOct0` consumes only input characters. -/
theorem parseOct0_length_le (s : Str) : (parseOct0 s).2.length ≤ s.length := by
  match s with
  | [] => simp [parseOct0]
  | e1 :: rest3 =>
    rw [parseOct0.eq_def]
    dsimp only
    split
    · match rest3 with
      | [] => simp
      | e2 :: rest4 =>
        dsimp only
        split
        · simp only [List.length_cons]
          omega
        · simp only [List.length_cons]
          omega
    · simp

/-- `parseDigitRef` consumes only input characters. -/
theorem parseDigitRef_length_le (d : Char) (s : Str) (p : TPiece) (r : Str) :
    parseDigitRef d s = .ok (p, r) → r.length ≤ s.length := by
  intro h
  match s with
  | [] =>
    rw [parseDigitRef.eq_def] at h
    dsimp only at h
    split at h
    · cases h; simp
    · cases h
  | e1 :: rest3 =>
    rw [parseDigitRef.eq_def] at h
    dsimp only at h
    split at h
    · match rest3 with
      | [] => cases h
      | e2 :: rest4 =>
        dsimp only at h
        split at h
        · split at h
          · cases h
          · cases h
            simp only [List.length_cons]
            omega
        · cases h
    · split at h
      · cases h; simp
      · cases h

/-- `parseGName` consumes a suffix of its input (plus the `>`). -/
theorem parseGName_length_le :
    ∀ (s : Str) (nm r : Str), parseGName s = .ok (nm, r) → r.length ≤ s.length := by
  intro s
  induction s with
  | nil => intro nm r h; simp [parseGName] at h
  | cons c rest ih =>
    intro nm r h
    simp only [parseGName] at h
    split at h
    · cases h; simp
    · cases hg : parseGName rest with
      | error e => rw [hg] at h; cases h
      | ok pr =>
        obtain ⟨nm2, r2⟩ := pr
        rw [hg] at h
        cases h
        have := ih _ _ hg
        simp only [List.length_cons]
        omega

/-- `parseGAngle` consumes a suffix of its input. -/
theorem parseGAngle_length_le (s : Str) (n : Nat) (r : Str) :
    parseGAngle s = .ok (n, r) → r.length ≤ s.length := by
  intro h
  match s with
  | [] => simp [parseGAngle] at h
  | c :: rest =>
    simp only [parseGAngle] at h
    split at h
    · cases hg : parseGName rest with
      | error e => rw [hg] at h; cases h
      | ok pr =>
        obtain ⟨nm, r2⟩ := pr
        rw [hg] at h
        dsimp only at h
        split at h
        · cases h
          have := parseGName_length_le rest _ _ hg
          simp only [List.length_cons]
          omega
        · cases h
    · cases h

/-- `parseEsc` consumes only characters of its string argument. -/
theorem parseEsc_length_le (d : Char) (s : Str) (p : TPiece) (r : Str) :
    parseEsc d s = .ok (p, r) → r.length ≤ s.length := by
  intro h
  rw [parseEsc.eq_def] at h
  by_cases h1 : d = bsl
  · rw [if_pos h1] at h; cases h; omega
  · rw [if_neg h1] at h
    by_cases h2 : d = 'n'
    · rw [if_pos h2] at h; cases h; omega
    · rw [if_neg h2] at h
      by_cases h3 : d = 'a'
      · rw [if_pos h3] at h; cases h; omega
      · rw [if_neg h3] at h
        by_cases h4 : d = 'b'
        · rw [if_pos h4] at h; cases h; omega
        · rw [if_neg h4] at h
          by_cases h5 : d = 'f'
          · rw [if_pos h5] at h; cases h; omega
          · rw [if_neg h5] at h
            by_cases h6 : d = 'r'
            · rw [if_pos h6] at h; cases h; omega
            · rw [if_neg h6] at h
              by_cases h7 : d = 't'
              · rw [if_pos h7] at h; cases h; omega
              · rw [if_neg h7] at h
                by_cases h8 : d = 'v'
                · rw [if_pos h8] at h; cases h; omega
                · rw [if_neg h8] at h
                  by_cases h9 : d = 'g'
                  · rw [if_pos h9] at h
                    cases hg : parseGAngle s with
                    | error e => rw [hg] at h; cases h
                    | ok pr =>
                      obtain ⟨n, rest3⟩ := pr
                      rw [hg] at h
                      dsimp only at h
                      split at h
                      · cases h
                        exact parseGAngle_length_le _ _ _ hg
                      · cases h
                  · rw [if_neg h9] at h
                    by_cases h10 : d = '0'
                    · rw [if_pos h10] at h
                      injection h with h'
                      have := parseOct0_length_le s
                      rw [h'] at this
                      exact this
                    · rw [if_neg h10] at h
                      by_cases h11 : d.isDigit
                      · rw [if_pos h11] at h
                        exact parseDigitRef_length_le d s p r h
                      · rw [if_neg h11] at h
                        by_cases h12 : d.isAlpha
                        · rw [if_pos h12] at h; cases h
                        · rw [if_neg h12] at h; cases h; omega

/-- Each template step strictly consumes input. -/
theorem parseStep_length_lt (s : Str) (p : TPiece) (r : Str) :
    parseStep s = .ok (p, r) → r.length < s.length := by
  intro h
  match s with
  | [] => rw [parseStep.eq_def] at h; cases h
  | c :: rest =>
    rw [parseStep.eq_def] at h
    dsimp only at h
    split at h
    · match rest with
      | [] => cases h
      | d :: rest2 =>
        have := parseEsc_length_le d rest2 p r h
        simp only [List.length_cons]
        omega
    · cases h
      simp

/-- The fuel is irrelevant once it exceeds the template length. -/
theorem parseTemplateF_fuel :
    ∀ (n : Nat), ∀ (fuel fuel' : Nat) (s : Str), s.length ≤ n →
      s.length < fuel → s.length < fuel' →
      parseTemplateF fuel s = parseTemplateF fuel' s := by
  intro n
  induction n with
  | zero =>
    intro fuel fuel' s hs hf hf'
    match fuel, fuel' with
    | f + 1, f' + 1 =>
      have hsnil : s = [] := List.eq_nil_of_length_eq_zero (by omega)
      subst hsnil
      rfl
  | succ n ih =>
    intro fuel fuel' s hs hf hf'
    match fuel, fuel' with
    | f + 1, f' + 1 =>
      match s with
      | [] => rfl
      | c :: rest =>
        simp only [parseTemplateF]
        match hps : parseStep (c :: rest) with
        | .error e => rfl
        | .ok (p, r) =>
          dsimp only
          have hr := parseStep_length_lt (c :: rest) p r hps
          simp only [List.length_cons] at hr hs hf hf'
          rw [ih f f' r (by omega) (by omega) (by omega)]

/-- Unescaping after a doubled backslash. -/
theorem unescape_bsl_bsl (t : Str) : unescape (bsl :: bsl :: t) = bsl :: unescape t := by
  simp [unescape, bsl]

/-- Unescaping after backslash-`n`. -/
theorem unescape_bsl_n (t : Str) : unescape (bsl :: 'n' :: t) = nlc :: unescape t := by
  simp [unescape, bsl]

/-- Unescaping after backslash-quote. -/
theorem unescape_bsl_quote (t : Str) : unescape (bsl :: '"' :: t) = '"' :: unescape t := by
  simp [unescape, bsl]

/-- Unescaping an ordinary (non-backslash) character. -/
theorem unescape_cons_ne (c : Char) (t : Str) (h : c ≠ bsl) :
    unescape (c :: t) = c :: unescape t := by
  match t with
  | [] => simp [unescape]
  | d :: rest => simp [unescape, h]

/-- Decoding inverts the version/title field escaping for every string. -/
theorem unescape_escape_rust_string (s : Str) :
    unescape (escape_rust_string s) = s := by
  induction s with
  | nil => rfl
  | cons c rest ih =>
    by_cases hb : c = bsl
    · subst hb
      rw [escape_rust_string, if_pos rfl]
      simp only [List.cons_append, List.nil_append]
      rw [unescape_bsl_bsl, ih]
    · by_cases hq : c = '"'
      · subst hq
        rw [escape_rust_string]
        rw [if_neg (by simp [bsl]), if_pos rfl]
        simp only [List.cons_append, List.nil_append]
        rw [unescape_bsl_quote, ih]
      · rw [escape_rust_string, if_neg hb, if_neg hq]
        simp only [List.cons_append, List.nil_append]
        rw [unescape_cons_ne c _ hb, ih]

/-- `pyReplace` is the identity when the pattern does not occur. -/
theorem pyReplace_of_none (s pat repl : Str) (h : findSub pat s = none) :
    pyReplace s pat repl = s := by
  simp only [pyReplace, pyReplaceF, h]

/-- `pyReplace` expanded at a found occurrence. -/
theorem pyReplace_of_some (s pat repl : Str) (i : Nat) (hp : pat ≠ [])
    (h : findSub pat s = some i) :
    pyReplace s pat repl
      = s.take i ++ repl ++ pyReplace (s.drop (i + pat.length)) pat repl := by
  have hlen : i + pat.length ≤ s.length := findSub_add_length_le pat s i h
  have hppos : 0 < pat.length := List.length_pos_of_ne_nil hp
  simp only [pyReplace, pyReplaceF, h]
  congr 1
  exact pyReplaceF_fuel pat repl hp s.length s.length ((s.drop (i + pat.length)).length + 1)
    (s.drop (i + pat.length))
    (by simp only [List.length_drop]; omega)
    (by simp only [List.length_drop]; omega)
    (by omega)

/-- `pyReplace` on a leading occurrence of a single-character pattern. -/
theorem pyReplace_cons_hit (c0 : Char) (repl : Str) (rest : Str) :
    pyReplace (c0 :: rest) [c0] repl = repl ++ pyReplace rest [c0] repl := by
  have h : findSub [c0] (c0 :: rest) = some 0 := by
    simp [findSub, List.isPrefixOf]
  rw [pyReplace_of_some (c0 :: rest) [c0] repl 0 (by simp) h]
  simp

/-- `pyReplace` skips a non-matching head for a single-character pattern. -/
theorem pyReplace_cons_miss (c0 c : Char) (repl : Str) (rest : Str) (h : c ≠ c0) :
    pyReplace (c :: rest) [c0] repl = c :: pyReplace rest [c0] repl := by
  have hpre : ¬ ([c0].isPrefixOf (c :: rest)) := by
    simp [List.isPrefixOf]
    intro hc
    exact h hc.symm
  have hcons : findSub [c0] (c :: rest) = (findSub [c0] rest).map (· + 1) := by
    rw [findSub, if_neg hpre]
  match hrest : findSub [c0] rest with
  | none =>
    have hfc : findSub [c0] (c :: rest) = none := by rw [hcons, hrest]; rfl
    rw [pyReplace_of_none _ _ _ hfc, pyReplace_of_none _ _ _ hrest]
  | some j =>
    have hfc : findSub [c0] (c :: rest) = some (j + 1) := by rw [hcons, hrest]; rfl
    rw [pyReplace_of_some (c :: rest) [c0] repl (j + 1) (by simp) hfc]
    rw [pyReplace_of_some rest [c0] repl j (by simp) hrest]
    simp [List.take_succ_cons, List.drop_succ_cons]

/-- Single-character `str.replace` acts characterwise. -/
theorem pyReplace_single (c0 : Char) (repl : Str) :
    ∀ s : Str, pyReplace s [c0] repl
      = s.flatMap (fun c => if c = c0 then repl else [c]) := by
  intro s
  induction s with
  | nil => rw [pyReplace_of_none] <;> rfl
  | cons c rest ih =>
    by_cases hc : c = c0
    · subst hc
      rw [pyReplace_cons_hit, ih]
      simp
    · rw [pyReplace_cons_miss c0 c repl rest hc, ih]
      simp [hc]

/-- `formatContent` is the characterwise map `encPy`. -/
theorem formatContent_flatMap (s : Str) : formatContent s = s.flatMap encPy := by
  rw [formatContent, pyReplace_single, pyReplace_single]
  rw [List.flatMap_assoc]
  congr 1
  funext c
  by_cases hn : c = nlc
  · subst hn
    simp [encPy, bsl, nlc]
  · by_cases hq : c = '"'
    · subst hq
      simp [encPy, bsl, nlc]
    · simp [encPy, hn, hq]

/-- `applyTemplate` distributes over concatenation of pieces. -/
theorem applyTemplate_append (g1 g2 g3 : Str) (ps qs : List TPiece) :
    applyTemplate g1 g2 g3 (ps ++ qs)
      = applyTemplate g1 g2 g3 ps ++ applyTemplate g1 g2 g3 qs := by
  induction ps with
  | nil => rfl
  | cons p rest ih =>
    cases p with
    | chs l => simp [applyTemplate, ih]
    | grp n => simp [applyTemplate, ih]

/-- A non-backslash character is one literal template step. -/
theorem parseStep_ord (c : Char) (t : Str) (h : c ≠ bsl) :
    parseStep (c :: t) = .ok (.chs [c], t) := by
  rw [parseStep.eq_def]
  dsimp only
  rw [if_neg h]

/-- A doubled backslash is one template step yielding a single backslash. -/
theorem parseStep_bsl_bsl (t : Str) : parseStep (bsl :: bsl :: t) = .ok (.chs [bsl], t) := by
  rw [parseStep.eq_def]
  dsimp only
  rw [if_pos rfl]
  rw [parseEsc.eq_def]
  rw [if_pos rfl]

/-- Backslash-quote is one template step kept verbatim. -/
theorem parseStep_bsl_quote (t : Str) :
    parseStep (bsl :: '"' :: t) = .ok (.chs [bsl, '"'], t) := by
  rw [parseStep.eq_def]
  dsimp only
  rw [if_pos rfl]
  rw [parseEsc.eq_def]
  rw [if_neg (by decide), if_neg (by decide), if_neg (by decide), if_neg (by decide),
    if_neg (by decide), if_neg (by decide), if_neg (by decide), if_neg (by decide),
    if_neg (by decide), if_neg (by decide), if_neg (by decide), if_neg (by decide)]

/-- Unfolding one successful step of `parseTemplate`. -/
theorem parseTemplate_cons_ok (c : Char) (rest : Str) (p : TPiece) (r : Str)
    (h : parseStep (c :: rest) = .ok (p, r)) :
    parseTemplate (c :: rest)
      = match parseTemplate r with
        | .error e => .error e
        | .ok ps => .ok (p :: ps) := by
  have hr := parseStep_length_lt (c :: rest) p r h
  simp only [List.length_cons] at hr
  rw [show parseTemplate (c :: rest) = parseTemplateF ((c :: rest).length + 1) (c :: rest) from rfl]
  simp only [List.length_cons, parseTemplateF, h]
  rw [parseTemplateF_fuel (rest.length + 1) (rest.length + 1) (r.length + 1) r
    (by omega) (by omega) (by omega)]
  rfl

/-- Parsing the serialized form of backslash-free content succeeds, piece
by piece. -/
theorem parseTemplate_encPy (s : Str) (h : bsl ∉ s) :
    parseTemplate (s.flatMap encPy) = .ok (s.flatMap encPieces) := by
  induction s with
  | nil => simp only [List.flatMap_nil]; rfl
  | cons c rest ih =>
    have hc : c ≠ bsl := fun hh => h (hh ▸ List.mem_cons_self c rest)
    have hrest : bsl ∉ rest := fun hh => h (List.mem_cons_of_mem _ hh)
    simp only [List.flatMap_cons]
    by_cases hn : c = nlc
    · subst hn
      have he : encPy nlc = [bsl, bsl, 'n'] := by simp [encPy]
      rw [he]
      simp only [List.cons_append, List.nil_append]
      rw [parseTemplate_cons_ok _ _ _ _ (parseStep_bsl_bsl _)]
      rw [parseTemplate_cons_ok _ _ _ _ (parseStep_ord 'n' _ (by decide))]
      rw [ih hrest]
      simp [encPieces]
    · by_cases hq : c = '"'
      · subst hq
        have he : encPy '"' = [bsl, '"'] := by simp [encPy, nlc]
        rw [he]
        simp only [List.cons_append, List.nil_append]
        rw [parseTemplate_cons_ok _ _ _ _ (parseStep_bsl_quote _)]
        rw [ih hrest]
        simp [encPieces, nlc]
      · have he : encPy c = [c] := by simp [encPy, hn, hq]
        rw [he]
        simp only [List.cons_append, List.nil_append]
        rw [parseTemplate_cons_ok _ _ _ _ (parseStep_ord c _ hc)]
        rw [ih hrest]
        simp [encPieces, hn, hq]

/-- Expanding those pieces gives the characterwise document form. -/
theorem applyTemplate_encPieces (g1 g2 g3 : Str) (s : Str) :
    applyTemplate g1 g2 g3 (s.flatMap encPieces) = s.flatMap encOut := by
  induction s with
  | nil => rfl
  | cons c rest ih =>
    simp only [List.flatMap_cons]
    rw [applyTemplate_append, ih]
    congr 1
    by_cases hn : c = nlc
    · subst hn; simp [encPieces, encOut, applyTemplate]
    · by_cases hq : c = '"'
      · subst hq; simp [encPieces, encOut, applyTemplate, nlc]
      · simp [encPieces, encOut, applyTemplate, hn, hq]

/-- Decoding the document form recovers backslash-free content. -/
theorem unescape_encOut (s : Str) (h : bsl ∉ s) :
    unescape (s.flatMap encOut) = s := by
  induction s with
  | nil => rfl
  | cons c rest ih =>
    have hc : c ≠ bsl := fun hh => h (hh ▸ List.mem_cons_self c rest)
    have hrest : bsl ∉ rest := fun hh => h (List.mem_cons_of_mem _ hh)
    simp only [List.flatMap_cons]
    by_cases hn : c = nlc
    · subst hn
      have he : encOut nlc = [bsl, 'n'] := by simp [encOut]
      rw [he]
      simp only [List.cons_append, List.nil_append]
      rw [unescape_bsl_n, ih hrest]
    · by_cases hq : c = '"'
      · subst hq
        have he : encOut '"' = [bsl, '"'] := by simp [encOut, nlc]
        rw [he]
        simp only [List.cons_append, List.nil_append]
        rw [unescape_bsl_quote, ih hrest]
      · have he : encOut c = [c] := by simp [encOut, hn, hq]
        rw [he]
        simp only [List.cons_append, List.nil_append]
        rw [unescape_cons_ne c _ hc, ih hrest]

/-- Claim C7 — For every record sequence and every key: if some record's key
equals the given key (first such position `i`), the upsert replaces that
record's title and content in place, keeping its position (`List.set i`),
and reports `was_update = true`; if no record's key matches, it appends a
new record with the given key/title/content after the last existing record
and reports `was_update = false`. -/
theorem C7_upsert_semantics (v t c : Str) (anns : List PyAnn) :
    (∀ i, List.findIdx? (fun a => a.version = v) anns = some i →
      ∀ old, anns.get? i = some old →
        upsertAnnouncements v t c anns = (anns.set i ⟨old.version, t, c⟩, true))
    ∧ (List.findIdx? (fun a => a.version = v) anns = none →
        upsertAnnouncements v t c anns = (anns ++ [⟨v, t, c⟩], false)) := by
  induction anns with
  | nil =>
    constructor
    · intro i h
      simp at h
    · intro _
      rfl
  | cons a rest ih =>
    constructor
    · intro i hfind old hget
      simp only [List.findIdx?_cons] at hfind
      by_cases hv : a.version = v
      · rw [if_pos (by simpa using hv)] at hfind
        cases hfind
        simp only [List.get?_cons_zero, Option.some.injEq] at hget
        subst hget
        simp only [upsertAnnouncements, if_pos hv, List.set_cons_zero]
      · rw [if_neg (by simpa using hv)] at hfind
        rw [List.findIdx?_succ] at hfind
        match hi : List.findIdx? (fun a => a.version = v) rest with
        | none => rw [hi] at hfind; cases hfind
        | some j =>
          rw [hi] at hfind
          simp only [Option.map_some'] at hfind
          cases hfind
          simp only [List.get?_cons_succ] at hget
          have := (ih.1) j hi old hget
          simp only [upsertAnnouncements, if_neg hv, this, List.set_cons_succ]
    · intro hfind
      simp only [List.findIdx?_cons] at hfind
      by_cases hv : a.version = v
      · rw [if_pos (by simpa using hv)] at hfind
        cases hfind
      · rw [if_neg (by simpa using hv)] at hfind
        rw [List.findIdx?_succ] at hfind
        match hi : List.findIdx? (fun a => a.version = v) rest with
        | some j => rw [hi] at hfind; simp at hfind
        | none =>
          have := ih.2 hi
          simp only [upsertAnnouncements, if_neg hv, this, List.cons_append]

/-- Witness for C7: a concrete update-in-place and a concrete append. -/
theorem C7_upsert_semantics_witness :
    (List.findIdx? (fun a : PyAnn => a.version = "0.6.0".data)
        ([⟨"0.5.0".data, "A".data, "B".data⟩, ⟨"0.6.0".data, "T".data, "C".data⟩] : List PyAnn) = some 1
      ∧ upsertAnnouncements "0.6.0".data "N".data "M".data
          [⟨"0.5.0".data, "A".data, "B".data⟩, ⟨"0.6.0".data, "T".data, "C".data⟩]
        = (([⟨"0.5.0".data, "A".data, "B".data⟩,
            ⟨"0.6.0".data, "T".data, "C".data⟩] : List PyAnn).set 1 ⟨"0.6.0".data, "N".data, "M".data⟩, true))
    ∧ (List.findIdx? (fun a : PyAnn => a.version = "0.7.0".data)
        ([⟨"0.6.0".data, "T".data, "C".data⟩] : List PyAnn) = none
      ∧ upsertAnnouncements "0.7.0".data "N".data "M".data [⟨"0.6.0".data, "T".data, "C".data⟩]
        = (([⟨"0.6.0".data, "T".data, "C".data⟩] : List PyAnn) ++ [⟨"0.7.0".data, "N".data, "M".data⟩], false)) :=
  ⟨⟨by decide,
    (C7_upsert_semantics "0.6.0".data "N".data "M".data
      [⟨"0.5.0".data, "A".data, "B".data⟩, ⟨"0.6.0".data, "T".data, "C".data⟩]).1 1 (by decide)
      ⟨"0.6.0".data, "T".data, "C".data⟩ (by decide)⟩,
   ⟨by decide,
    (C7_upsert_semantics "0.7.0".data "N".data "M".data
      [⟨"0.6.0".data, "T".data, "C".data⟩]).2 (by decide)⟩⟩

/-- Claim C1, counterexample — decoding the encoded form does not give back
the original string.  Rendering content `a\nb` (a literal backslash then
`n`) stores, after the replacement-template pass, a real newline in the
document, and decoding yields `a`, newline, `b` — not the original.
Likewise, at the level of the field serialization alone, a newline is
stored as backslash-backslash-`n`, which decodes to the literal pair
backslash-`n`, not to a newline. -/
theorem C1_counterexample :
    update_announcement doc0 "0.7.0".data "Hi".data ['a', bsl, 'n', 'b']
      = .ok (docC1, false)
    ∧ (parse_announcements docC1).map Prod.fst
      = .ok [⟨"0.6.0".data, "T".data, "C".data⟩, ⟨"0.7.0".data, "Hi".data, ['a', nlc, 'b']⟩]
    ∧ (['a', nlc, 'b'] : Str) ≠ ['a', bsl, 'n', 'b']
    ∧ unescape (formatContent [nlc]) = [bsl, 'n']
    ∧ ([bsl, 'n'] : Str) ≠ [nlc] :=
  ⟨rfl, rfl, by decide, by decide, by decide⟩

/-- Claim C1 (amended) — the round-trip law holds for the version/title
escaping (`unescape ∘ escape_rust_string = id`, for every string), and for
the content field whenever the content contains no backslash: its
serialized form (after the `re.sub` template pass that turns
backslash-backslash-`n` into backslash-`n` and keeps backslash-quote)
decodes back to the original content.  Strings containing backslashes do
not round-trip (see the counterexample). -/
theorem C1_roundtrip_amended :
    (∀ s : Str, unescape (escape_rust_string s) = s)
    ∧ (∀ s : Str, bsl ∉ s →
        parseTemplate (formatContent s) = .ok (s.flatMap encPieces)
        ∧ ∀ g1 g2 g3 : Str,
            unescape (applyTemplate g1 g2 g3 (s.flatMap encPieces)) = s) := by
  constructor
  · exact unescape_escape_rust_string
  · intro s hs
    constructor
    · rw [formatContent_flatMap]
      exact parseTemplate_encPy s hs
    · intro g1 g2 g3
      rw [applyTemplate_encPieces]
      exact unescape_encOut s hs

/-- Witness for the amended C1 at concrete backslash-free inputs. -/
theorem C1_roundtrip_amended_witness :
    unescape (escape_rust_string "a\\b\"c\nd".data) = "a\\b\"c\nd".data
    ∧ bsl ∉ ("x\"y\nz".data)
    ∧ parseTemplate (formatContent "x\"y\nz".data)
      = .ok (("x\"y\nz".data).flatMap encPieces)
    ∧ unescape (applyTemplate MARKER [] CLOSE (("x\"y\nz".data).flatMap encPieces))
      = "x\"y\nz".data :=
  ⟨C1_roundtrip_amended.1 _, by decide,
   (C1_roundtrip_amended.2 "x\"y\nz".data (by decide)).1,
   (C1_roundtrip_amended.2 "x\"y\nz".data (by decide)).2 MARKER [] CLOSE⟩

/-- Claim C2 — the code does not fail on an unparseable block: the `0.9.9`
block of `docMal` cannot be matched by `ann_pattern`, yet
`parse_announcements` succeeds, silently omitting it, and the subsequent
update writes a document from which the block has vanished — the record is
dropped rather than the operation failing with a `MalformedRecord` error. -/
theorem C2_malformed_silently_dropped :
    (findSub "0.9.9".data docMal).isSome = true
    ∧ (parse_announcements docMal).map Prod.fst
      = .ok [⟨"0.6.0".data, "T".data, "C".data⟩]
    ∧ update_announcement docMal "0.6.0".data "N".data "M".data
      = .ok (docMalUpdated, true)
    ∧ findSub "0.9.9".data docMalUpdated = none :=
  ⟨rfl, rfl, rfl, rfl⟩

/-- Claim C6, counterexample — the two failure modes are not
distinguished: a document without the marker and a document with the
marker but no closing `];` (the marker demonstrably present, at index 0)
both produce the very same single `ValueError`; no `UnterminatedArray`
error exists in the code. -/
theorem C6_counterexample :
    parse_announcements "no marker here".data
      = .error (.valueError "Could not find VERSION_ANNOUNCEMENTS array in file")
    ∧ parse_announcements docUnterm
      = .error (.valueError "Could not find VERSION_ANNOUNCEMENTS array in file")
    ∧ findSub MARKER docUnterm = some 0 :=
  ⟨rfl, rfl, rfl⟩

/-- Claim C6 (amended) — both failure modes produce the same single error:
if the marker is absent, or if the marker is present but no `];` follows
it, `parse_announcements` fails with the one `ValueError` and
`update_announcement` propagates it, producing no output document in
either case. -/
theorem C6_errors_amended (doc v t c : Str) :
    (findSub MARKER doc = none →
      parse_announcements doc
        = .error (.valueError "Could not find VERSION_ANNOUNCEMENTS array in file")
      ∧ update_announcement doc v t c
        = .error (.valueError "Could not find VERSION_ANNOUNCEMENTS array in file"))
    ∧ (∀ p, findSub MARKER doc = some p →
        findSub CLOSE (doc.drop (p + MARKER.length)) = none →
        parse_announcements doc
          = .error (.valueError "Could not find VERSION_ANNOUNCEMENTS array in file")
        ∧ update_announcement doc v t c
          = .error (.valueError "Could not find VERSION_ANNOUNCEMENTS array in file")) := by
  constructor
  · intro h
    have hp : parse_announcements doc
        = .error (.valueError "Could not find VERSION_ANNOUNCEMENTS array in file") := by
      simp only [parse_announcements, h]
    exact ⟨hp, by simp only [update_announcement, hp]⟩
  · intro p h1 h2
    have hp : parse_announcements doc
        = .error (.valueError "Could not find VERSION_ANNOUNCEMENTS array in file") := by
      simp only [parse_announcements, h1, h2]
    exact ⟨hp, by simp only [update_announcement, hp]⟩

/-- Witness for the amended C6 at concrete inputs for both failure modes. -/
theorem C6_errors_amended_witness :
    (parse_announcements "fn main() {}".data
       = .error (.valueError "Could not find VERSION_ANNOUNCEMENTS array in file")
     ∧ update_announcement "fn main() {}".data "0.7.0".data "t".data "c".data
       = .error (.valueError "Could not find VERSION_ANNOUNCEMENTS array in file"))
    ∧ (parse_announcements docUnterm
       = .error (.valueError "Could not find VERSION_ANNOUNCEMENTS array in file")
     ∧ update_announcement docUnterm "0.7.0".data "t".data "c".data
       = .error (.valueError "Could not find VERSION_ANNOUNCEMENTS array in file")) :=
  ⟨(C6_errors_amended "fn main() {}".data "0.7.0".data "t".data "c".data).1 rfl,
   (C6_errors_amended docUnterm "0.7.0".data "t".data "c".data).2 0 rfl rfl⟩

/-- Whether `pat` occurs as a contiguous substring of `s`. -/
def hasSub (pat s : Str) : Bool := (findSub pat s).isSome

/-- Occurrence in a cons: at the head, or in the tail. -/
theorem hasSub_cons (pat : Str) (c : Char) (t : Str) :
    hasSub pat (c :: t) = (pat.isPrefixOf (c :: t) || hasSub pat t) := by
  simp only [hasSub, findSub]
  split
  · simp_all
  · simp_all

/-- `pyReplace` skips a head that no occurrence starts at. -/
theorem pyReplace_cons_skip (pat repl : Str) (c : Char) (t : Str) (hp : pat ≠ [])
    (h : ¬ pat.isPrefixOf (c :: t)) :
    pyReplace (c :: t) pat repl = c :: pyReplace t pat repl := by
  have hcons : findSub pat (c :: t) = (findSub pat t).map (· + 1) := by
    rw [findSub, if_neg h]
  match hft : findSub pat t with
  | none =>
    rw [pyReplace_of_none _ _ _ (by rw [hcons, hft]; rfl), pyReplace_of_none _ _ _ hft]
  | some j =>
    have hfc : findSub pat (c :: t) = some (j + 1) := by rw [hcons, hft]; rfl
    rw [pyReplace_of_some _ _ _ _ hp hfc, pyReplace_of_some _ _ _ _ hp hft]
    have harith : j + 1 + pat.length = (j + pat.length) + 1 := by omega
    rw [harith]
    simp [List.take_succ_cons, List.drop_succ_cons]

/-- The head of the backslash-`n` replacement output is the input's head or
the inserted newline. -/
theorem contentFromArg_head :
    ∀ t : Str, (pyReplace t [bsl, 'n'] [nlc]).head? = none
      ∨ (pyReplace t [bsl, 'n'] [nlc]).head? = some nlc
      ∨ (pyReplace t [bsl, 'n'] [nlc]).head? = t.head? := by
  intro t
  match t with
  | [] =>
    left
    rw [pyReplace_of_none _ _ _ (by rfl)]
    rfl
  | d :: t2 =>
    by_cases hpre : [bsl, 'n'].isPrefixOf (d :: t2)
    · right; left
      have hfc : findSub [bsl, 'n'] (d :: t2) = some 0 := by
        rw [findSub, if_pos hpre]
      rw [pyReplace_of_some _ _ _ 0 (by simp) hfc]
      rfl
    · right; right
      rw [pyReplace_cons_skip _ _ _ _ (by simp) hpre]
      rfl

/-- The backslash-`n` pattern is no prefix when the second character is
not `n`. -/
theorem bsn_not_prefix_two (x : Char) (R : Str) (hx : x ≠ 'n') :
    [bsl, 'n'].isPrefixOf (bsl :: x :: R) = false := by
  simp [List.isPrefixOf, Ne.symm hx]

/-- The backslash-`n` pattern is no prefix when the first character is not
a backslash. -/
theorem bsn_not_prefix_one (y : Char) (R : Str) (hy : y ≠ bsl) :
    [bsl, 'n'].isPrefixOf (y :: R) = false := by
  simp [List.isPrefixOf, Ne.symm hy]

/-- Bound-length auxiliary for claim C10: no occurrence of the literal
backslash-`n` pair survives the replacement. -/
theorem contentFromArg_no_bsn_aux :
    ∀ (n : Nat) (arg : Str), arg.length ≤ n →
      hasSub [bsl, 'n'] (pyReplace arg [bsl, 'n'] [nlc]) = false := by
  intro n
  induction n with
  | zero =>
    intro arg hlen
    have harg : arg = [] := List.eq_nil_of_length_eq_zero (by omega)
    subst harg
    rfl
  | succ n ih =>
    intro arg hlen
    match arg with
    | [] => rfl
    | c :: t =>
      by_cases hpre : [bsl, 'n'].isPrefixOf (c :: t)
      · have hfc : findSub [bsl, 'n'] (c :: t) = some 0 := by
          rw [findSub, if_pos hpre]
        rw [pyReplace_of_some _ _ _ 0 (by simp) hfc]
        simp only [List.take_zero, List.nil_append, List.cons_append, List.nil_append]
        rw [hasSub_cons]
        have h1 : [bsl, 'n'].isPrefixOf
            (nlc :: pyReplace ((c :: t).drop (0 + [bsl, 'n'].length)) [bsl, 'n'] [nlc])
            = false := bsn_not_prefix_one nlc _ (by decide)
        rw [h1, Bool.false_or]
        apply ih
        simp only [List.length_cons] at hlen
        simp only [List.length_drop, List.length_cons]
        omega
      · rw [pyReplace_cons_skip _ _ _ _ (by simp) hpre]
        rw [hasSub_cons]
        have htail : hasSub [bsl, 'n'] (pyReplace t [bsl, 'n'] [nlc]) = false := by
          apply ih
          simp only [List.length_cons] at hlen
          omega
        rw [htail, Bool.or_false]
        by_cases hc : c = bsl
        · subst hc
          have ht : ¬ (['n'].isPrefixOf t = true) := by
            intro hh
            apply hpre
            simp only [List.isPrefixOf, beq_self_eq_true, Bool.true_and]
            exact hh
          rcases contentFromArg_head t with hh | hh | hh
          · match hR : pyReplace t [bsl, 'n'] [nlc] with
            | [] => rfl
            | x :: R2 => rw [hR] at hh; cases hh
          · match hR : pyReplace t [bsl, 'n'] [nlc] with
            | [] => rfl
            | x :: R2 =>
              rw [hR] at hh
              simp only [List.head?_cons, Option.some.injEq] at hh
              rw [hh]
              exact bsn_not_prefix_two nlc R2 (by decide)
          · match hR : pyReplace t [bsl, 'n'] [nlc] with
            | [] => rfl
            | x :: R2 =>
              rw [hR] at hh
              match t with
              | [] => cases hh
              | d :: t2 =>
                simp only [List.head?_cons, Option.some.injEq] at hh
                have hd : d ≠ 'n' := by
                  intro hdn
                  apply ht
                  subst hdn
                  simp [List.isPrefixOf]
                rw [hh]
                exact bsn_not_prefix_two d R2 hd
        · exact bsn_not_prefix_one c _ hc

/-- Claim C10 — in three-argument command-line mode with a non-file content
argument, every occurrence of the literal two-character sequence
backslash-`n` is replaced by a real newline (`contentFromArg`, line 272),
and consequently the content passed to the upsert can never contain that
literal two-character sequence. -/
theorem C10_no_literal_backslash_n (arg : Str) :
    hasSub [bsl, 'n'] (contentFromArg arg) = false :=
  contentFromArg_no_bsn_aux arg.length arg (Nat.le_refl _)

/-- The sorted key list underlying the differ is pairwise ordered. -/
theorem sortedKeys_pairwise (l : List String) :
    List.Pairwise (· ≤ ·) (l.mergeSort (fun a b => decide (a ≤ b))) := by
  have h := List.sorted_mergeSort
    (fun a b c (hab : decide (a ≤ b) = true) (hbc : decide (b ≤ c) = true) =>
      decide_eq_true_eq.mpr
        (le_trans (decide_eq_true_eq.mp hab) (decide_eq_true_eq.mp hbc)))
    (fun a b => by
      rcases le_total a b with h | h
      · simp [h]
      · simp [h])
    l
  exact h.imp (fun hab => decide_eq_true_eq.mp hab)

/-- Claim C8 — for every pair of flattened key-to-value mappings, the
differ returns the missing keys (present in English, absent in target) and
the extra keys (present in target, absent in English) as sorted sequences
of key paths, and membership depends only on key presence, not on values:
replacing every value on either side leaves both outputs unchanged. -/
theorem C8_differ_spec (enFlat targetFlat : List (String × YVal)) :
    List.Pairwise (· ≤ ·) (missingKeys enFlat targetFlat)
    ∧ List.Pairwise (· ≤ ·) (extraKeys enFlat targetFlat)
    ∧ (∀ k : String, k ∈ missingKeys enFlat targetFlat
        ↔ (k ∈ enFlat.map Prod.fst ∧ k ∉ targetFlat.map Prod.fst))
    ∧ (∀ k : String, k ∈ extraKeys enFlat targetFlat
        ↔ (k ∈ targetFlat.map Prod.fst ∧ k ∉ enFlat.map Prod.fst))
    ∧ (∀ f g : String → YVal → YVal,
        missingKeys (enFlat.map (fun q => (q.1, f q.1 q.2)))
            (targetFlat.map (fun q => (q.1, g q.1 q.2)))
          = missingKeys enFlat targetFlat
        ∧ extraKeys (enFlat.map (fun q => (q.1, f q.1 q.2)))
            (targetFlat.map (fun q => (q.1, g q.1 q.2)))
          = extraKeys enFlat targetFlat) := by
  have hmem : ∀ (a b : List (String × YVal)) (k : String),
      k ∈ ((a.map Prod.fst).mergeSort (fun x y => decide (x ≤ y))).filter
          (fun k2 => ¬ b.any (fun q => q.1 = k2))
        ↔ (k ∈ a.map Prod.fst ∧ k ∉ b.map Prod.fst) := by
    intro a b k
    rw [List.mem_filter, List.mem_mergeSort]
    constructor
    · rintro ⟨hka, hkb⟩
      refine ⟨hka, ?_⟩
      intro hmem
      simp only [decide_not, Bool.not_eq_true', decide_eq_false_iff_not] at hkb
      apply hkb
      rw [List.any_eq_true]
      rw [List.mem_map] at hmem
      obtain ⟨q, hq, hqk⟩ := hmem
      exact ⟨q, hq, by simp [hqk]⟩
    · rintro ⟨hka, hkb⟩
      refine ⟨hka, ?_⟩
      simp only [decide_not, Bool.not_eq_true', decide_eq_false_iff_not]
      intro hany
      apply hkb
      rw [List.any_eq_true] at hany
      obtain ⟨q, hq, hqk⟩ := hany
      rw [List.mem_map]
      exact ⟨q, hq, by simpa using hqk⟩
  refine ⟨?_, ?_, ?_, ?_, ?_⟩
  · exact (sortedKeys_pairwise _).filter _
  · exact (sortedKeys_pairwise _).filter _
  · intro k
    exact hmem enFlat targetFlat k
  · intro k
    exact hmem targetFlat enFlat k
  · intro f g
    constructor
    · rw [missingKeys, missingKeys, List.map_map]
      have h1 : (Prod.fst ∘ fun q : String × YVal => (q.1, f q.1 q.2)) = Prod.fst := rfl
      rw [h1]
      congr 1
      funext k2
      rw [List.any_map]
      rfl
    · rw [extraKeys, extraKeys, List.map_map]
      have h1 : (Prod.fst ∘ fun q : String × YVal => (q.1, g q.1 q.2)) = Prod.fst := rfl
      rw [h1]
      congr 1
      funext k2
      rw [List.any_map]
      rfl

/-- Membership after a Python-dict insertion comes from the dict or the
inserted pair. -/
theorem pyDictInsert_mem (d : List (String × YVal)) (k : String) (v : YVal)
    (x : String × YVal) (h : x ∈ pyDictInsert d k v) : x ∈ d ∨ x = (k, v) := by
  rw [pyDictInsert] at h
  split at h
  · rw [List.mem_map] at h
    obtain ⟨q, hq, hqx⟩ := h
    by_cases hk : q.1 = k
    · right
      rw [if_pos hk] at hqx
      exact hqx.symm
    · left
      rw [if_neg hk] at hqx
      exact hqx ▸ hq
  · rw [List.mem_append] at h
    rcases h with h | h
    · exact Or.inl h
    · right
      simpa using h

/-- Every pair of a Python dict comes from its item list. -/
theorem pyDict_mem (items : List (String × YVal)) (x : String × YVal)
    (h : x ∈ pyDict items) : x ∈ items := by
  have haux : ∀ (its acc : List (String × YVal)),
      x ∈ its.foldl (fun d kv => pyDictInsert d kv.1 kv.2) acc → x ∈ acc ∨ x ∈ its := by
    intro its
    induction its with
    | nil => intro acc h2; exact Or.inl h2
    | cons kv rest ih =>
      intro acc h2
      rcases ih (pyDictInsert acc kv.1 kv.2) h2 with h3 | h3
      · rcases pyDictInsert_mem acc kv.1 kv.2 x h3 with h4 | h4
        · exact Or.inl h4
        · right
          rw [h4]
          simp
      · right
        exact List.mem_cons_of_mem _ h3
  rcases haux items [] h with h2 | h2
  · cases h2
  · exact h2

/-- Item-loop equation: a string leaf contributes one entry under its
dotted key. -/
theorem flattenItems_cons_str (pk k a : String) (rest : List (String × YVal)) :
    flattenItems pk ((k, .str a) :: rest)
      = (joinKey pk k, .str a) :: flattenItems pk rest := by
  simp [flattenItems]

/-- Item-loop equation: a list value is kept as a single leaf entry under
its dotted key; its elements are never flattened. -/
theorem flattenItems_cons_list (pk k : String) (l : List YVal)
    (rest : List (String × YVal)) :
    flattenItems pk ((k, .list l) :: rest)
      = (joinKey pk k, .list l) :: flattenItems pk rest := by
  simp [flattenItems]

/-- Item-loop equation: a dict value is recursed into with the dotted key. -/
theorem flattenItems_cons_dict (pk k : String) (m rest : List (String × YVal)) :
    flattenItems pk ((k, .dict m) :: rest)
      = flatten_dict m (joinKey pk k) ++ flattenItems pk rest := by
  simp [flattenItems]

/-- No value emitted by the flattener item loop is itself a dict (size
bound for the nested induction). -/
theorem flattenItems_no_dict_aux :
    ∀ (n : Nat) (d : List (String × YVal)) (pk p : String) (v : YVal),
      sizeOf d ≤ n → (p, v) ∈ flattenItems pk d → v.isDict = false := by
  intro n
  induction n with
  | zero =>
    intro d pk p v hsz hmem
    match d with
    | [] => simp [flattenItems] at hmem
    | q :: rest =>
      simp only [List.cons.sizeOf_spec] at hsz
      omega
  | succ n ih =>
    intro d pk p v hsz hmem
    match d with
    | [] => simp [flattenItems] at hmem
    | (k, w) :: rest =>
      have hszr : sizeOf rest ≤ n := by
        simp only [List.cons.sizeOf_spec] at hsz
        omega
      match w with
      | .str a =>
        rw [flattenItems_cons_str] at hmem
        rw [List.mem_cons] at hmem
        rcases hmem with hmem | hmem
        · rw [(Prod.mk.injEq _ _ _ _ ▸ hmem : p = joinKey pk k ∧ v = .str a).2]
          rfl
        · exact ih rest pk p v hszr hmem
      | .list l =>
        rw [flattenItems_cons_list] at hmem
        rw [List.mem_cons] at hmem
        rcases hmem with hmem | hmem
        · rw [(Prod.mk.injEq _ _ _ _ ▸ hmem : p = joinKey pk k ∧ v = .list l).2]
          rfl
        · exact ih rest pk p v hszr hmem
      | .dict m =>
        rw [flattenItems_cons_dict] at hmem
        rw [List.mem_append] at hmem
        rcases hmem with hmem | hmem
        · have h2 : (p, v) ∈ flatten_dict m (joinKey pk k) := hmem
          rw [flatten_dict] at h2
          have hm : (p, v) ∈ flattenItems (joinKey pk k) m := pyDict_mem _ _ h2
          apply ih m (joinKey pk k) p v ?_ hm
          simp only [List.cons.sizeOf_spec, Prod.mk.sizeOf_spec, YVal.dict.sizeOf_spec] at hsz
          omega
        · exact ih rest pk p v hszr hmem

/-- Equality of key sequences of two association lists. -/
def keysEq (d₁ d₂ : List (String × YVal)) : Prop :=
  d₁.map Prod.fst = d₂.map Prod.fst

/-- Key-membership tests agree on key-equal lists. -/
theorem keysEq_any (d₁ d₂ : List (String × YVal)) (h : keysEq d₁ d₂) (k : String) :
    d₁.any (fun q => q.1 = k) = d₂.any (fun q => q.1 = k) := by
  induction d₁ generalizing d₂ with
  | nil =>
    have : d₂ = [] := by
      rw [keysEq] at h
      exact List.map_eq_nil_iff.mp h.symm
    rw [this]
  | cons q₁ t₁ ih =>
    match d₂ with
    | [] => rw [keysEq] at h; cases h
    | q₂ :: t₂ =>
      rw [keysEq] at h
      simp only [List.map_cons, List.cons.injEq] at h
      simp only [List.any_cons]
      rw [h.1, ih t₂ h.2]

/-- Python-dict insertion preserves key-sequence equality. -/
theorem pyDictInsert_keysEq (d₁ d₂ : List (String × YVal)) (k : String)
    (v₁ v₂ : YVal) (h : keysEq d₁ d₂) :
    keysEq (pyDictInsert d₁ k v₁) (pyDictInsert d₂ k v₂) := by
  have hmapfst : ∀ (d : List (String × YVal)) (v : YVal),
      (d.map (fun q => if q.1 = k then (k, v) else q)).map Prod.fst = d.map Prod.fst := by
    intro d v
    rw [List.map_map]
    apply List.map_congr_left
    intro q _
    by_cases hq : q.1 = k
    · simp [hq]
    · simp [hq]
  rw [pyDictInsert, pyDictInsert, keysEq_any d₁ d₂ h k]
  split
  · rw [keysEq, hmapfst, hmapfst]
    exact h
  · rw [keysEq]
    simp only [List.map_append]
    rw [keysEq] at h
    rw [h]
    simp

/-- Python-dict construction preserves key-sequence equality. -/
theorem pyDict_keysEq (items₁ items₂ : List (String × YVal))
    (h : keysEq items₁ items₂) : keysEq (pyDict items₁) (pyDict items₂) := by
  have haux : ∀ (its₁ its₂ acc₁ acc₂ : List (String × YVal)),
      keysEq its₁ its₂ → keysEq acc₁ acc₂ →
      keysEq (its₁.foldl (fun d kv => pyDictInsert d kv.1 kv.2) acc₁)
             (its₂.foldl (fun d kv => pyDictInsert d kv.1 kv.2) acc₂) := by
    intro its₁
    induction its₁ with
    | nil =>
      intro its₂ acc₁ acc₂ hits hacc
      have : its₂ = [] := by
        rw [keysEq] at hits
        exact List.map_eq_nil_iff.mp hits.symm
      rw [this]
      exact hacc
    | cons q₁ t₁ ih =>
      intro its₂ acc₁ acc₂ hits hacc
      match its₂ with
      | [] => rw [keysEq] at hits; cases hits
      | q₂ :: t₂ =>
        rw [keysEq] at hits
        simp only [List.map_cons, List.cons.injEq] at hits
        simp only [List.foldl_cons]
        apply ih t₂ _ _ hits.2
        rw [← hits.1]
        exact pyDictInsert_keysEq acc₁ acc₂ q₁.1 q₁.2 q₂.2 hacc
  exact haux items₁ items₂ [] [] h rfl

/-- Key-sequence equality is preserved by append. -/
theorem keysEq_append (a1 a2 b1 b2 : List (String × YVal))
    (ha : keysEq a1 a2) (hb : keysEq b1 b2) : keysEq (a1 ++ b1) (a2 ++ b2) := by
  rw [keysEq] at ha hb ⊢
  simp only [List.map_append]
  rw [ha, hb]

/-- The flattener's key sequence ignores list contents (size-bounded
nested induction). -/
theorem flattenItems_keys_mapListLeaves_aux :
    ∀ (n : Nat) (d : List (String × YVal)) (pk : String) (f : List YVal → List YVal),
      sizeOf d ≤ n →
      keysEq (flattenItems pk (mapListLeaves f d)) (flattenItems pk d) := by
  intro n
  induction n with
  | zero =>
    intro d pk f hsz
    match d with
    | [] =>
      rw [mapListLeaves]
      rw [keysEq]
    | q :: rest =>
      simp only [List.cons.sizeOf_spec] at hsz
      omega
  | succ n ih =>
    intro d pk f hsz
    match d with
    | [] =>
      rw [mapListLeaves]
      rw [keysEq]
    | (k, w) :: rest =>
      have hszr : sizeOf rest ≤ n := by
        simp only [List.cons.sizeOf_spec] at hsz
        omega
      have htail := ih rest pk f hszr
      match w with
      | .str a =>
        rw [mapListLeaves, mapListLeavesVal]
        rw [flattenItems_cons_str, flattenItems_cons_str]
        rw [keysEq] at htail ⊢
        simp only [List.map_cons]
        rw [htail]
      | .list l =>
        rw [mapListLeaves, mapListLeavesVal]
        rw [flattenItems_cons_list, flattenItems_cons_list]
        rw [keysEq] at htail ⊢
        simp only [List.map_cons]
        rw [htail]
      | .dict m =>
        rw [mapListLeaves, mapListLeavesVal]
        rw [flattenItems_cons_dict, flattenItems_cons_dict]
        apply keysEq_append _ _ _ _ ?_ htail
        rw [flatten_dict, flatten_dict]
        apply pyDict_keysEq
        apply ih m (joinKey pk k) f
        simp only [List.cons.sizeOf_spec, Prod.mk.sizeOf_spec, YVal.dict.sizeOf_spec] at hsz
        omega

/-- Claim C9 — the locale flattener recurses only into dictionary values:
a dict value is recursed into under the dotted (`.`-joined) key, while a
list value is kept as a single leaf entry under its dotted key and its
elements are never flattened (every emitted value is a non-dict, and a
singleton list entry flattens to exactly one entry holding the whole
list); consequently the flattened key sequence — what the locale
comparison consumes — does not depend on list contents at all. -/
theorem C9_flatten_lists :
    (∀ (pk k : String) (l : List YVal) (rest : List (String × YVal)),
        flattenItems pk ((k, .list l) :: rest)
          = (joinKey pk k, .list l) :: flattenItems pk rest)
    ∧ (∀ (pk k : String) (l : List YVal),
        flatten_dict [(k, .list l)] pk = [(joinKey pk k, .list l)])
    ∧ (∀ (pk k : String) (m rest : List (String × YVal)),
        flattenItems pk ((k, .dict m) :: rest)
          = flatten_dict m (joinKey pk k) ++ flattenItems pk rest)
    ∧ (∀ (d : List (String × YVal)) (pk p : String) (v : YVal),
        (p, v) ∈ flatten_dict d pk → v.isDict = false)
    ∧ (∀ (f : List YVal → List YVal) (d : List (String × YVal)) (pk : String),
        (flatten_dict (mapListLeaves f d) pk).map Prod.fst
          = (flatten_dict d pk).map Prod.fst) := by
  refine ⟨flattenItems_cons_list, ?_, flattenItems_cons_dict, ?_, ?_⟩
  · intro pk k l
    rw [flatten_dict, flattenItems_cons_list]
    simp [flattenItems, pyDict, pyDictInsert]
  · intro d pk p v hmem
    rw [flatten_dict] at hmem
    exact flattenItems_no_dict_aux (sizeOf d) d pk p v (Nat.le_refl _) (pyDict_mem _ _ hmem)
  · intro f d pk
    rw [flatten_dict, flatten_dict]
    exact pyDict_keysEq _ _
      (flattenItems_keys_mapListLeaves_aux (sizeOf d) d pk f (Nat.le_refl _))

/-- Witness for C9: a concrete list leaf flows through the flattener whole
and is not a dict. -/
theorem C9_flatten_lists_witness :
    YVal.isDict (YVal.list [YVal.str "x"]) = false :=
  C9_flatten_lists.2.2.2.1 [("b", YVal.list [YVal.str "x"])] "" "b"
    (YVal.list [YVal.str "x"])
    (by simp [flatten_dict, flattenItems, pyDict, pyDictInsert, joinKey])

/-- A found occurrence decomposes the string. -/
theorem findSub_decomp (pat : Str) :
    ∀ (s : Str) (i : Nat), findSub pat s = some i →
      s = s.take i ++ pat ++ s.drop (i + pat.length) := by
  intro s
  induction s with
  | nil =>
    intro i h
    simp only [findSub] at h
    split at h
    · simp_all
    · simp at h
  | cons a t ih =>
    intro i h
    simp only [findSub] at h
    split at h
    · rename_i hpre
      cases h
      obtain ⟨u, hu⟩ := List.isPrefixOf_iff_prefix.mp hpre
      conv_lhs => rw [← hu]
      simp only [List.take_zero, List.nil_append, Nat.zero_add]
      rw [← hu, List.drop_left]
    · match hfs : findSub pat t with
      | none => rw [hfs] at h; simp at h
      | some j =>
        rw [hfs] at h
        simp only [Option.map_some'] at h
        cases h
        have hstep : j + 1 + pat.length = (j + pat.length) + 1 := by omega
        rw [hstep]
        simp only [List.take_succ_cons, List.drop_succ_cons, List.cons_append]
        congr 1
        exact ih j hfs

/-- The no-match case of the `re.sub` loop leaves the text unchanged, at
any fuel. -/
theorem subLoop_no_match (pieces : List TPiece) (s : Str)
    (h : findSub MARKER s = none) :
    ∀ fuel, subLoop pieces fuel s = s := by
  intro fuel
  match fuel with
  | 0 => rfl
  | f + 1 => simp only [subLoop, h]

/-- One replacement step of the `re.sub` loop. -/
theorem subLoop_step (pieces : List TPiece) (s : Str) (p b : Nat)
    (h1 : findSub MARKER s = some p)
    (h2 : findSub CLOSE (s.drop (p + MARKER.length)) = some b) :
    ∀ fuel, subLoop pieces (fuel + 1) s
      = s.take p
        ++ applyTemplate MARKER ((s.drop (p + MARKER.length)).take b) CLOSE pieces
        ++ subLoop pieces fuel (s.drop (p + MARKER.length + b + CLOSE.length)) := by
  intro fuel
  simp only [subLoop, h1, h2]

/-- The replacement tail `[nlc, bsl, '3']` contains no `>`, so a successful
group-name scan stays inside the part before it. -/
theorem parseGName_boundary :
    ∀ (xs nm r : Str),
      parseGName (xs ++ [nlc, bsl, '3']) = .ok (nm, r) →
      ∃ xs2, r = xs2 ++ [nlc, bsl, '3'] ∧ xs2.length ≤ xs.length := by
  intro xs
  induction xs with
  | nil =>
    intro nm r h
    rw [show parseGName ([] ++ [nlc, bsl, '3'])
        = Except.error (PyErr.templateError "missing >, unterminated name") from rfl] at h
    cases h
  | cons x xs' ih =>
    intro nm r h
    simp only [List.cons_append] at h
    rw [parseGName.eq_def] at h
    dsimp only at h
    split at h
    · cases h
      exact ⟨xs', rfl, by simp⟩
    · match hg : parseGName (xs' ++ [nlc, bsl, '3']) with
      | .error e => rw [hg] at h; cases h
      | .ok (nm', r2) =>
        rw [hg] at h
        dsimp only at h
        obtain ⟨xs2, hr, hl⟩ := ih nm' r2 hg
        cases h
        exact ⟨xs2, hr, by simp only [List.length_cons]; omega⟩

/-- A successful `\g<…>` reference parse stays inside the part before the
replacement tail. -/
theorem parseGAngle_boundary (xs : Str) (n : Nat) (r : Str)
    (h : parseGAngle (xs ++ [nlc, bsl, '3']) = .ok (n, r)) :
    ∃ xs2, r = xs2 ++ [nlc, bsl, '3'] ∧ xs2.length ≤ xs.length := by
  match xs with
  | [] =>
    rw [show parseGAngle ([] ++ [nlc, bsl, '3'])
        = Except.error (PyErr.templateError "missing <") from rfl] at h
    cases h
  | x :: xs' =>
    simp only [List.cons_append] at h
    rw [parseGAngle.eq_def] at h
    dsimp only at h
    split at h
    · match hg : parseGName (xs' ++ [nlc, bsl, '3']) with
      | .error e => rw [hg] at h; cases h
      | .ok (nm, r2) =>
        rw [hg] at h
        dsimp only at h
        split at h
        · obtain ⟨xs2, hr, hl⟩ := parseGName_boundary xs' nm r2 hg
          cases h
          exact ⟨xs2, hr, by simp only [List.length_cons]; omega⟩
        · cases h
    · cases h

/-- An octal escape after `\0` never consumes the leading newline of the
replacement tail. -/
theorem parseOct0_boundary (xs : Str) :
    ∃ xs2, (parseOct0 (xs ++ [nlc, bsl, '3'])).2 = xs2 ++ [nlc, bsl, '3']
      ∧ xs2.length ≤ xs.length := by
  match xs with
  | [] =>
    exact ⟨[], rfl, Nat.le_refl _⟩
  | [e1] =>
    simp only [List.cons_append, List.nil_append]
    rw [parseOct0.eq_def]
    dsimp only
    split
    · rw [if_neg (by decide : ¬ isOct nlc = true)]
      exact ⟨[], rfl, by simp⟩
    · exact ⟨[e1], rfl, by simp⟩
  | e1 :: e2 :: xs' =>
    simp only [List.cons_append]
    rw [parseOct0.eq_def]
    dsimp only
    split
    · split
      · exact ⟨xs', rfl, by simp only [List.length_cons]; omega⟩
      · exact ⟨e2 :: xs', rfl, by simp only [List.length_cons]; omega⟩
    · exact ⟨e1 :: e2 :: xs', rfl, Nat.le_refl _⟩

/-- A successful numeric group reference or octal escape after `\d` never
consumes the leading newline of the replacement tail. -/
theorem parseDigitRef_boundary (d : Char) (xs : Str) (p : TPiece) (r : Str)
    (h : parseDigitRef d (xs ++ [nlc, bsl, '3']) = .ok (p, r)) :
    ∃ xs2, r = xs2 ++ [nlc, bsl, '3'] ∧ xs2.length ≤ xs.length := by
  match xs with
  | [] =>
    simp only [List.nil_append] at h
    rw [parseDigitRef.eq_def] at h
    dsimp only at h
    rw [if_neg (by decide : ¬ nlc.isDigit = true)] at h
    split at h
    · cases h
      exact ⟨[], rfl, Nat.le_refl _⟩
    · cases h
  | [e1] =>
    simp only [List.cons_append, List.nil_append] at h
    rw [parseDigitRef.eq_def] at h
    dsimp only at h
    split at h
    · rw [if_neg (by
        rw [show isOct nlc = false from by decide]
        simp)] at h
      cases h
    · split at h
      · cases h
        exact ⟨[e1], rfl, Nat.le_refl _⟩
      · cases h
  | e1 :: e2 :: xs' =>
    simp only [List.cons_append] at h
    rw [parseDigitRef.eq_def] at h
    dsimp only at h
    split at h
    · split at h
      · split at h
        · cases h
        · cases h
          exact ⟨xs', rfl, by simp only [List.length_cons]; omega⟩
      · cases h
    · split at h
      · cases h
        exact ⟨e1 :: e2 :: xs', rfl, Nat.le_refl _⟩
      · cases h

/-- A successful escape parse never consumes the leading newline of the
replacement tail. -/
theorem parseEsc_boundary (d : Char) (xs : Str) (p : TPiece) (r : Str)
    (h : parseEsc d (xs ++ [nlc, bsl, '3']) = .ok (p, r)) :
    ∃ xs2, r = xs2 ++ [nlc, bsl, '3'] ∧ xs2.length ≤ xs.length := by
  rw [parseEsc.eq_def] at h
  by_cases h1 : d = bsl
  · rw [if_pos h1] at h; cases h; exact ⟨xs, rfl, Nat.le_refl _⟩
  · rw [if_neg h1] at h
    by_cases h2 : d = 'n'
    · rw [if_pos h2] at h; cases h; exact ⟨xs, rfl, Nat.le_refl _⟩
    · rw [if_neg h2] at h
      by_cases h3 : d = 'a'
      · rw [if_pos h3] at h; cases h; exact ⟨xs, rfl, Nat.le_refl _⟩
      · rw [if_neg h3] at h
        by_cases h4 : d = 'b'
        · rw [if_pos h4] at h; cases h; exact ⟨xs, rfl, Nat.le_refl _⟩
        · rw [if_neg h4] at h
          by_cases h5 : d = 'f'
          · rw [if_pos h5] at h; cases h; exact ⟨xs, rfl, Nat.le_refl _⟩
          · rw [if_neg h5] at h
            by_cases h6 : d = 'r'
            · rw [if_pos h6] at h; cases h; exact ⟨xs, rfl, Nat.le_refl _⟩
            · rw [if_neg h6] at h
              by_cases h7 : d = 't'
              · rw [if_pos h7] at h; cases h; exact ⟨xs, rfl, Nat.le_refl _⟩
              · rw [if_neg h7] at h
                by_cases h8 : d = 'v'
                · rw [if_pos h8] at h; cases h; exact ⟨xs, rfl, Nat.le_refl _⟩
                · rw [if_neg h8] at h
                  by_cases h9 : d = 'g'
                  · rw [if_pos h9] at h
                    match hg : parseGAngle (xs ++ [nlc, bsl, '3']) with
                    | .error e => rw [hg] at h; cases h
                    | .ok (n, r3) =>
                      rw [hg] at h
                      dsimp only at h
                      split at h
                      · obtain ⟨xs2, hr, hl⟩ := parseGAngle_boundary xs n r3 hg
                        cases h
                        exact ⟨xs2, hr, hl⟩
                      · cases h
                  · rw [if_neg h9] at h
                    by_cases h10 : d = '0'
                    · rw [if_pos h10] at h
                      injection h with h2
                      obtain ⟨xs2, hr, hl⟩ := parseOct0_boundary xs
                      rw [h2] at hr
                      exact ⟨xs2, hr, hl⟩
                    · rw [if_neg h10] at h
                      by_cases h11 : d.isDigit
                      · rw [if_pos h11] at h
                        exact parseDigitRef_boundary d xs p r h
                      · rw [if_neg h11] at h
                        by_cases h12 : d.isAlpha
                        · rw [if_pos h12] at h; cases h
                        · rw [if_neg h12] at h; cases h
                          exact ⟨xs, rfl, Nat.le_refl _⟩

/-- One template step over a string ending in the replacement tail either
stays before the tail (strictly consuming prefix text) or is the kept pair
backslash–newline formed exactly at the boundary, leaving `[bsl, '3']`. -/
theorem parseStep_boundary (c : Char) (mid' : Str) (p : TPiece) (r : Str)
    (h : parseStep ((c :: mid') ++ [nlc, bsl, '3']) = .ok (p, r)) :
    (∃ mid2, r = mid2 ++ [nlc, bsl, '3'] ∧ mid2.length < (c :: mid').length)
    ∨ (p = .chs [bsl, nlc] ∧ r = [bsl, '3']) := by
  simp only [List.cons_append] at h
  rw [parseStep.eq_def] at h
  dsimp only at h
  by_cases hc : c = bsl
  · rw [if_pos hc] at h
    match mid' with
    | [] =>
      simp only [List.nil_append] at h
      rw [show parseEsc nlc [bsl, '3']
          = Except.ok (TPiece.chs [bsl, nlc], [bsl, '3']) from rfl] at h
      cases h
      exact Or.inr ⟨rfl, rfl⟩
    | d :: mid'' =>
      simp only [List.cons_append] at h
      obtain ⟨xs2, hr, hl⟩ := parseEsc_boundary d mid'' p r h
      exact Or.inl ⟨xs2, hr, by simp only [List.length_cons]; omega⟩
  · rw [if_neg hc] at h
    cases h
    exact Or.inl ⟨mid', rfl, by simp⟩

/-- Inversion of one successful step of template parsing. -/
theorem parseTemplate_ok_inv (c : Char) (rest : Str) (ps : List TPiece)
    (h : parseTemplate (c :: rest) = .ok ps) :
    ∃ p r ps', parseStep (c :: rest) = .ok (p, r) ∧ parseTemplate r = .ok ps'
      ∧ ps = p :: ps' := by
  match hs : parseStep (c :: rest) with
  | .error e =>
    exfalso
    have hPT : parseTemplate (c :: rest)
        = parseTemplateF (rest.length + 1 + 1) (c :: rest) := by
      simp [parseTemplate]
    rw [hPT] at h
    simp only [parseTemplateF, hs] at h
    exact Except.noConfusion h
  | .ok (p, r) =>
    rw [parseTemplate_cons_ok c rest p r hs] at h
    match hr : parseTemplate r with
    | .error e => rw [hr] at h; cases h
    | .ok ps' =>
      rw [hr] at h
      dsimp only at h
      cases h
      exact ⟨p, r, ps', rfl, hr, rfl⟩

/-- Any successfully parsed template ending in the literal newline plus the
`\3` group reference substitutes, for arbitrary groups, to a string ending
in that newline followed by group 3. -/
theorem applyTemplate_tail_g3 (g1 g2 g3 : Str) :
    ∀ (n : Nat) (mid : Str), mid.length ≤ n →
      ∀ ps, parseTemplate (mid ++ [nlc, bsl, '3']) = .ok ps →
      ∃ w, applyTemplate g1 g2 g3 ps = w ++ nlc :: g3 := by
  intro n
  induction n with
  | zero =>
    intro mid hn ps h
    have hmid : mid = [] := List.eq_nil_of_length_eq_zero (by omega)
    subst hmid
    rw [show parseTemplate ([] ++ [nlc, bsl, '3'])
        = Except.ok [TPiece.chs [nlc], TPiece.grp 3] from rfl] at h
    cases h
    refine ⟨[], ?_⟩
    simp [applyTemplate]
  | succ m ih =>
    intro mid hn ps h
    match mid with
    | [] =>
      rw [show parseTemplate ([] ++ [nlc, bsl, '3'])
          = Except.ok [TPiece.chs [nlc], TPiece.grp 3] from rfl] at h
      cases h
      refine ⟨[], ?_⟩
      simp [applyTemplate]
    | c :: mid' =>
      rw [List.cons_append] at h
      obtain ⟨p, r, ps', hs, hr, hps⟩ :=
        parseTemplate_ok_inv c (mid' ++ [nlc, bsl, '3']) ps h
      subst hps
      rw [← List.cons_append] at hs
      rcases parseStep_boundary c mid' p r hs with ⟨mid2, hrm, hlt⟩ | ⟨hp, hrr⟩
      · subst hrm
        have hlen : mid2.length ≤ m := by
          simp only [List.length_cons] at hn hlt; omega
        obtain ⟨w', hw'⟩ := ih mid2 hlen ps' hr
        match p with
        | .chs l =>
          refine ⟨l ++ w', ?_⟩
          simp only [applyTemplate, hw', List.append_assoc]
        | .grp k =>
          refine ⟨(if k = 0 then g1 ++ g2 ++ g3 else if k = 1 then g1
            else if k = 2 then g2 else if k = 3 then g3 else []) ++ w', ?_⟩
          simp only [applyTemplate, hw', List.append_assoc]
      · subst hp
        subst hrr
        rw [show parseTemplate [bsl, '3'] = Except.ok [TPiece.grp 3] from rfl] at hr
        cases hr
        refine ⟨[bsl], ?_⟩
        simp [applyTemplate]

/-- Setting a position of a list to the element already there changes
nothing. -/
theorem set_get_self {α : Type} :
    ∀ (l : List α) (i : Nat) (a : α), l.get? i = some a → l.set i a = l := by
  intro l
  induction l with
  | nil =>
    intro i a h
    cases i <;> simp at h
  | cons x xs ih =>
    intro i a h
    match i with
    | 0 =>
      simp only [List.get?_cons_zero, Option.some.injEq] at h
      subst h
      simp
    | j + 1 =>
      simp only [List.get?_cons_succ] at h
      simp only [List.set_cons_succ]
      rw [ih j a h]

/-- The found branch of the upsert: the first matching record is replaced
in place. -/
theorem upsert_found (v t c : Str) :
    ∀ (anns : List PyAnn) (i : Nat),
      List.findIdx? (fun a => a.version = v) anns = some i →
      ∀ old, anns.get? i = some old →
        upsertAnnouncements v t c anns = (anns.set i ⟨old.version, t, c⟩, true) := by
  intro anns
  induction anns with
  | nil =>
    intro i h
    simp at h
  | cons a rest ih =>
    intro i hfind old hget
    simp only [List.findIdx?_cons] at hfind
    by_cases hv : a.version = v
    · rw [if_pos (by simpa using hv)] at hfind
      cases hfind
      simp only [List.get?_cons_zero, Option.some.injEq] at hget
      subst hget
      simp only [upsertAnnouncements, if_pos hv, List.set_cons_zero]
    · rw [if_neg (by simpa using hv)] at hfind
      rw [List.findIdx?_succ] at hfind
      match hi : List.findIdx? (fun a => a.version = v) rest with
      | none => rw [hi] at hfind; cases hfind
      | some j =>
        rw [hi] at hfind
        simp only [Option.map_some'] at hfind
        cases hfind
        simp only [List.get?_cons_succ] at hget
        have := ih j hi old hget
        simp only [upsertAnnouncements, if_neg hv, this, List.set_cons_succ]

/-- The not-found branch of the upsert: a new record is appended. -/
theorem upsert_notFound (v t c : Str) :
    ∀ (anns : List PyAnn),
      List.findIdx? (fun a => a.version = v) anns = none →
      upsertAnnouncements v t c anns = (anns ++ [⟨v, t, c⟩], false) := by
  intro anns
  induction anns with
  | nil =>
    intro _
    rfl
  | cons a rest ih =>
    intro hfind
    simp only [List.findIdx?_cons] at hfind
    by_cases hv : a.version = v
    · rw [if_pos (by simpa using hv)] at hfind
      cases hfind
    · rw [if_neg (by simpa using hv)] at hfind
      rw [List.findIdx?_succ] at hfind
      match hi : List.findIdx? (fun a => a.version = v) rest with
      | some j => rw [hi] at hfind; simp at hfind
      | none =>
        have := ih hi
        simp only [upsertAnnouncements, if_neg hv, this, List.cons_append]

/-- Upserting the title and content the found record already has is the
identity on the record list (and still reports an update). -/
theorem upsert_self (v t c : Str) (anns : List PyAnn) (i : Nat) (a : PyAnn)
    (hfind : List.findIdx? (fun x => x.version = v) anns = some i)
    (hget : anns.get? i = some a) (ht : a.title = t) (hc : a.content = c) :
    upsertAnnouncements v t c anns = (anns, true) := by
  have h := upsert_found v t c anns i hfind a hget
  have ha : (⟨a.version, t, c⟩ : PyAnn) = a := by
    cases a
    simp only at ht hc
    subst ht
    subst hc
    rfl
  rw [ha, set_get_self anns i a hget] at h
  exact h

/-- The `\1` group reference at the head of the replacement, when followed
by a backslash (so the digit lookahead is not a digit). -/
theorem parseStep_grp1 (t : Str) :
    parseStep (bsl :: '1' :: bsl :: t) = .ok (.grp 1, bsl :: t) := by
  rw [parseStep.eq_def]
  dsimp only
  rw [if_pos rfl]
  rw [parseEsc.eq_def]
  rw [if_neg (by decide), if_neg (by decide), if_neg (by decide), if_neg (by decide),
    if_neg (by decide), if_neg (by decide), if_neg (by decide), if_neg (by decide),
    if_neg (by decide), if_neg (by decide)]
  rw [if_pos (by decide)]
  rw [parseDigitRef.eq_def]
  dsimp only
  rw [if_neg (by decide)]
  rw [if_pos (by decide)]
  rfl

/-- The `\n` escape step. -/
theorem parseStep_bsl_n (t : Str) :
    parseStep (bsl :: 'n' :: t) = .ok (.chs [nlc], t) := by
  rw [parseStep.eq_def]
  dsimp only
  rw [if_pos rfl]
  rw [parseEsc.eq_def]
  rw [if_neg (by decide), if_pos rfl]

/-- `parse_announcements` on a document whose marker and close are found. -/
theorem parse_announcements_ok (doc : Str) (p b : Nat)
    (h1 : findSub MARKER doc = some p)
    (h2 : findSub CLOSE (doc.drop (p + MARKER.length)) = some b) :
    parse_announcements doc
      = .ok ((findIterAux annItems ((doc.drop (p + MARKER.length)).take b)).map mkAnn,
          countLines (doc.take p),
          countLines (doc.take (p + MARKER.length + b + CLOSE.length))) := by
  simp only [parse_announcements, h1, h2]

/-- `update_announcement` on a locatable document, in terms of the
substitution pass over the rebuilt array. -/
theorem update_announcement_eq (doc v t c : Str) (p b : Nat)
    (anns2 : List PyAnn) (w2 : Bool)
    (h1 : findSub MARKER doc = some p)
    (h2 : findSub CLOSE (doc.drop (p + MARKER.length)) = some b)
    (hu : upsertAnnouncements v t c
        ((findIterAux annItems ((doc.drop (p + MARKER.length)).take b)).map mkAnn)
      = (anns2, w2)) :
    update_announcement doc v t c
      = match pySubAll (buildReplacement anns2) doc with
        | .error e => .error e
        | .ok newContent => .ok (newContent, w2) := by
  simp only [update_announcement, parse_announcements, h1, h2, hu]

/-- Claim C3, counterexample — the suffix after the located array's close is
not byte-identical after the update.  In `doc3` the text after the first
span's close still contains `XYZ` (inside a second marker…`];` span), but
`re.sub` replaces every match, so the updated document no longer contains
`XYZ` anywhere: bytes of the suffix were rewritten. -/
theorem C3_counterexample :
    update_announcement doc3 "0.7.0".data "Hi".data "Hello".data = .ok (doc3upd, false)
    ∧ findSub MARKER doc3 = some 1
    ∧ findSub CLOSE (doc3.drop (1 + MARKER.length)) = some 1
    ∧ hasSub ['X', 'Y', 'Z'] (doc3.drop (1 + MARKER.length + 1 + CLOSE.length)) = true
    ∧ hasSub ['X', 'Y', 'Z'] doc3upd = false :=
  ⟨rfl, rfl, rfl, rfl, rfl⟩

/-- Claim C3 — amended frame property: whenever the matched span's close is
followed by no further marker occurrence, a successful update returns the
document with the prefix before the located span and the suffix after its
close byte-identical to the input's; only the span between marker and close
is replaced. -/
theorem C3_frame_amended (doc v t c res : Str) (w : Bool) (p b : Nat)
    (h1 : findSub MARKER doc = some p)
    (h2 : findSub CLOSE (doc.drop (p + MARKER.length)) = some b)
    (h3 : findSub MARKER (doc.drop (p + MARKER.length + b + CLOSE.length)) = none)
    (h4 : update_announcement doc v t c = .ok (res, w)) :
    ∃ body2, res = doc.take p ++ MARKER ++ body2 ++ CLOSE
        ++ doc.drop (p + MARKER.length + b + CLOSE.length) := by
  rcases hu : upsertAnnouncements v t c
      ((findIterAux annItems ((doc.drop (p + MARKER.length)).take b)).map mkAnn)
    with ⟨anns2, w2⟩
  rw [update_announcement_eq doc v t c p b anns2 w2 h1 h2 hu] at h4
  match hpt : parseTemplate (buildReplacement anns2) with
  | .error e =>
    rw [pySubAll, hpt] at h4
    cases h4
  | .ok pieces =>
    rw [pySubAll, hpt] at h4
    dsimp only at h4
    have hshape : buildReplacement anns2
        = bsl :: '1' :: bsl :: 'n'
          :: (joinNL (buildArrayLines anns2) ++ [nlc, bsl, '3']) := by
      simp [buildReplacement, List.append_assoc]
    rw [hshape] at hpt
    rw [parseTemplate_cons_ok _ _ _ _ (parseStep_grp1 _)] at hpt
    rw [parseTemplate_cons_ok _ _ _ _ (parseStep_bsl_n _)] at hpt
    match hX : parseTemplate (joinNL (buildArrayLines anns2) ++ [nlc, bsl, '3']) with
    | .error e =>
      rw [hX] at hpt
      cases hpt
    | .ok psX =>
      rw [hX] at hpt
      dsimp only at hpt
      cases hpt
      obtain ⟨w', hw'⟩ := applyTemplate_tail_g3 MARKER
        ((doc.drop (p + MARKER.length)).take b) CLOSE
        (joinNL (buildArrayLines anns2)).length (joinNL (buildArrayLines anns2))
        (Nat.le_refl _) psX hX
      have hres : res = doc.take p
          ++ applyTemplate MARKER ((doc.drop (p + MARKER.length)).take b) CLOSE
              (.grp 1 :: .chs [nlc] :: psX)
          ++ doc.drop (p + MARKER.length + b + CLOSE.length) := by
        rw [subLoop_step _ doc p b h1 h2 doc.length,
          subLoop_no_match _ _ h3 doc.length] at h4
        injection h4 with h4'
        exact ((Prod.mk.injEq _ _ _ _).mp h4').1.symm
      refine ⟨nlc :: (w' ++ [nlc]), ?_⟩
      rw [hres]
      simp only [applyTemplate, hw']
      simp [List.append_assoc]

/-- Witness for the amended C3: the single-span document `doc0` updated
with a fresh record; the prefix and suffix around the span survive. -/
theorem C3_frame_amended_witness :
    ∃ body2, doc4W = doc0.take 8 ++ MARKER ++ body2 ++ CLOSE
        ++ doc0.drop (8 + MARKER.length + 149 + CLOSE.length) :=
  C3_frame_amended doc0 "0.7.0".data "Hi".data "Hello".data doc4W false 8 149
    rfl rfl rfl rfl

/-- Claim C4, counterexample — the second identical call is not idempotent
when the content embeds the array-close token `];`: starting from `doc0`
(which has no `0.7.0` record), the first upsert of `0.7.0` with content
`x];y` reports `was_update = false` as claimed, but the second identical
call also reports `false` (not `true`) and returns a different document. -/
theorem C4_counterexample :
    update_announcement doc0 "0.7.0".data "Hi".data ['x', ']', ';', 'y']
      = .ok (doc4a, false)
    ∧ update_announcement doc4a "0.7.0".data "Hi".data ['x', ']', ';', 'y']
      = .ok (doc4b, false)
    ∧ doc4a ≠ doc4b :=
  ⟨rfl, rfl, by decide⟩

/-- Claim C4 — amended idempotence: a repeated update is the identity (and
reports `was_update = true`) whenever the document's located span is the
only marker span, the parsed records contain the key with the same title
and content at the found position, and the rebuilt replacement template
parses and reproduces the matched span verbatim (which holds when no field
text interferes with the escaping, e.g. for the result of a first update
with `];`-free, backslash-free content). -/
theorem C4_idempotence_amended (doc k t c : Str) (p b i : Nat) (a : PyAnn)
    (ti : List TPiece)
    (h1 : findSub MARKER doc = some p)
    (h2 : findSub CLOSE (doc.drop (p + MARKER.length)) = some b)
    (h3 : findSub MARKER (doc.drop (p + MARKER.length + b + CLOSE.length)) = none)
    (hfind : List.findIdx? (fun x => x.version = k)
        ((findIterAux annItems ((doc.drop (p + MARKER.length)).take b)).map mkAnn)
      = some i)
    (hget : ((findIterAux annItems ((doc.drop (p + MARKER.length)).take b)).map mkAnn).get? i
      = some a)
    (ht : a.title = t) (hc : a.content = c)
    (hti : parseTemplate (buildReplacement
        ((findIterAux annItems ((doc.drop (p + MARKER.length)).take b)).map mkAnn))
      = .ok ti)
    (happ : applyTemplate MARKER ((doc.drop (p + MARKER.length)).take b) CLOSE ti
      = MARKER ++ (doc.drop (p + MARKER.length)).take b ++ CLOSE) :
    update_announcement doc k t c = .ok (doc, true) := by
  have hu := upsert_self k t c _ i a hfind hget ht hc
  rw [update_announcement_eq doc k t c p b _ true h1 h2 hu]
  rw [pySubAll, hti]
  dsimp only
  rw [subLoop_step ti doc p b h1 h2 doc.length,
    subLoop_no_match ti _ h3 doc.length, happ]
  have hd1 := findSub_decomp MARKER doc p h1
  have hd2 := findSub_decomp CLOSE (doc.drop (p + MARKER.length)) b h2
  have hdd : (doc.drop (p + MARKER.length)).drop (b + CLOSE.length)
      = doc.drop (p + MARKER.length + b + CLOSE.length) := by
    have harith : p + MARKER.length + (b + CLOSE.length)
        = p + MARKER.length + b + CLOSE.length := by omega
    rw [List.drop_drop, harith]
  rw [hdd] at hd2
  conv_rhs => rw [hd1, hd2]
  simp [List.append_assoc]

/-- Witness for the amended C4: updating `doc4W` (which already holds the
`0.7.0`/`Hi`/`Hello` record) with the same key, title and content returns
`doc4W` itself and reports an update. -/
theorem C4_idempotence_amended_witness :
    update_announcement doc4W "0.7.0".data "Hi".data "Hello".data
      = .ok (doc4W, true) :=
  C4_idempotence_amended doc4W "0.7.0".data "Hi".data "Hello".data 8 255 1
    ⟨"0.7.0".data, "Hi".data, "Hello".data⟩ tiW
    rfl rfl rfl rfl rfl rfl rfl rfl rfl

/-- Claim C5, counterexample — the non-updated records do not keep their
original textual form.  `doc5`'s first record (`0.5.0`, written on a single
line, a form `ann_pattern` accepts) parses fine and is not the record being
updated, yet after updating the `0.6.0` record the one-line text is gone:
every record is re-rendered in the canonical multi-line layout. -/
theorem C5_counterexample :
    parse_announcements doc5 = .ok (anns5, 2, 9)
    ∧ update_announcement doc5 "0.6.0".data "N".data "M".data = .ok (doc5upd, true)
    ∧ hasSub "VersionAnnouncement \x7b v".data doc5 = true
    ∧ hasSub "VersionAnnouncement \x7b v".data doc5upd = false :=
  ⟨rfl, rfl, rfl, rfl⟩

/-- Claim C5 — amended order preservation: updating the record at the found
position `i` keeps every other record at its original position with its
original parsed fields (hence its canonical rendered block is also
unchanged), and the whole updated document is the located span's
replacement between the untouched prefix and suffix; only textual-form
preservation of the source blocks is not guaranteed (they are re-rendered
canonically). -/
theorem C5_order_amended (doc k t c : Str) (p b i : Nat) (a : PyAnn)
    (ti : List TPiece) (anns : List PyAnn) (s e : Nat)
    (hp : parse_announcements doc = .ok (anns, s, e))
    (hfind : List.findIdx? (fun x => x.version = k) anns = some i)
    (hget : anns.get? i = some a)
    (h1 : findSub MARKER doc = some p)
    (h2 : findSub CLOSE (doc.drop (p + MARKER.length)) = some b)
    (h3 : findSub MARKER (doc.drop (p + MARKER.length + b + CLOSE.length)) = none)
    (hti : parseTemplate (buildReplacement ((upsertAnnouncements k t c anns).1))
      = .ok ti) :
    (upsertAnnouncements k t c anns).2 = true
    ∧ ((upsertAnnouncements k t c anns).1).length = anns.length
    ∧ (∀ j, j ≠ i → ((upsertAnnouncements k t c anns).1).get? j = anns.get? j)
    ∧ (∀ j, j ≠ i →
        (((upsertAnnouncements k t c anns).1).map renderBlockLines).get? j
          = (anns.map renderBlockLines).get? j)
    ∧ update_announcement doc k t c
        = .ok (doc.take p
            ++ applyTemplate MARKER ((doc.drop (p + MARKER.length)).take b) CLOSE ti
            ++ doc.drop (p + MARKER.length + b + CLOSE.length), true) := by
  have hfound := upsert_found k t c anns i hfind a hget
  rw [parse_announcements_ok doc p b h1 h2] at hp
  injection hp with hp'
  have hanns : (findIterAux annItems ((doc.drop (p + MARKER.length)).take b)).map mkAnn
      = anns := congrArg Prod.fst hp'
  refine ⟨?_, ?_, ?_, ?_, ?_⟩
  · rw [hfound]
  · rw [hfound]
    exact List.length_set anns i _
  · intro j hj
    rw [hfound]
    exact List.get?_set_ne _ anns (Ne.symm hj)
  · intro j hj
    rw [hfound]
    rw [List.get?_map, List.get?_map, List.get?_set_ne _ anns (Ne.symm hj)]
  · have hu2 : upsertAnnouncements k t c
        ((findIterAux annItems ((doc.drop (p + MARKER.length)).take b)).map mkAnn)
      = ((upsertAnnouncements k t c anns).1, true) := by
      rw [hanns, hfound]
    rw [update_announcement_eq doc k t c p b _ true h1 h2 hu2]
    rw [pySubAll, hti]
    dsimp only
    rw [subLoop_step ti doc p b h1 h2 doc.length,
      subLoop_no_match ti _ h3 doc.length]

/-- Witness for the amended C5: updating the second record of `doc5` keeps
the first record's position, fields and rendered block, and splices the
rebuilt array between `doc5`'s untouched prefix and suffix. -/
theorem C5_order_amended_witness :
    (upsertAnnouncements "0.6.0".data "N".data "M".data anns5).2 = true
    ∧ ((upsertAnnouncements "0.6.0".data "N".data "M".data anns5).1).length
        = anns5.length
    ∧ ((upsertAnnouncements "0.6.0".data "N".data "M".data anns5).1).get? 0
        = anns5.get? 0
    ∧ (((upsertAnnouncements "0.6.0".data "N".data "M".data anns5).1).map
          renderBlockLines).get? 0
        = (anns5.map renderBlockLines).get? 0
    ∧ update_announcement doc5 "0.6.0".data "N".data "M".data
        = .ok (doc5.take 5
            ++ applyTemplate MARKER ((doc5.drop (5 + MARKER.length)).take 175) CLOSE ti5
            ++ doc5.drop (5 + MARKER.length + 175 + CLOSE.length), true) := by
  have T := C5_order_amended doc5 "0.6.0".data "N".data "M".data 5 175 1
    ⟨"0.6.0".data, "T".data, "C".data⟩ ti5 anns5 2 9 rfl rfl rfl rfl rfl rfl rfl
  exact ⟨T.1, T.2.1, T.2.2.1 0 (by decide), T.2.2.2.1 0 (by decide), T.2.2.2.2⟩

end Pacsea
